import Mathlib

/-!
Verification of the asar patcher in `codex-darcula-theme.js`.

The development shallowly embeds the script's core functions over:
* byte buffers as `List Nat` (one natural number per byte),
* JavaScript strings as `List Char`,
* the external SHA-256 library call as a universally quantified digest
  function `sha : List Nat → String`,
* the external JSON library (`JSON.parse` / `JSON.stringify` of the asar
  header) as a universally quantified pair of functions, with the round-trip
  fact the code relies on taken as an explicit hypothesis where needed,
* the filesystem touched by the CLI commands as an explicit record of the
  file slots the script addresses.

Definitions keep the source names (`parseAsar`, `extractFileMap`,
`buildAsar`, `patchBundleSource`, `ensureBackup`, `commandPatch`, ...).
Errors are modelled as `Except String` carrying the exact `Error` message
strings thrown by the source.
-/

set_option maxRecDepth 100000

namespace CodexDarcula

/-- A byte buffer (Node `Buffer`): one natural number (0..255) per byte. -/
abbrev Bytes := List Nat

/-! ### Text primitives

The patch engine works on JavaScript strings, modelled as `List Char`.
`includesText` models `String.prototype.includes` and `replaceFirst` models
`String.prototype.replace` with a string pattern, which replaces only the
first occurrence (the replacement strings used by the script contain no
dollar placeholders, so the `$`-substitution rules of `replace` never
trigger). -/

/-- Models `hay.includes(pat)` (JS `String.prototype.includes`). -/
def includesText (pat : List Char) : List Char → Bool
  | [] => pat.isPrefixOf []
  | c :: rest => pat.isPrefixOf (c :: rest) || includesText pat rest

/-- Models `s.replace(pat, rep)` for a string pattern: rewrite the first
occurrence of `pat` only, or return `s` unchanged when `pat` is absent. -/
def replaceFirst (pat rep : List Char) : List Char → List Char
  | [] => if pat.isEmpty then rep else []
  | c :: rest =>
    if pat.isPrefixOf (c :: rest) then rep ++ (c :: rest).drop pat.length
    else c :: replaceFirst pat rep rest

theorem includesText_iff (pat : List Char) :
    ∀ hay : List Char, includesText pat hay = true ↔ pat <:+: hay := by
  intro hay
  induction hay with
  | nil =>
    simp [includesText, List.isPrefixOf_iff_prefix, List.infix_nil,
      List.prefix_nil]
  | cons c rest ih =>
    simp [includesText, List.isPrefixOf_iff_prefix, List.infix_cons_iff, ih]

theorem includesText_eq_false_iff (pat hay : List Char) :
    includesText pat hay = false ↔ ¬ pat <:+: hay := by
  rw [← includesText_iff pat hay]
  cases includesText pat hay <;> simp

/-- Characterisation of `replaceFirst` when the pattern occurs: the input
splits around the first occurrence of the pattern, and exactly that
occurrence is rewritten. -/
theorem replaceFirst_spec (pat rep : List Char) (hpat : pat ≠ []) :
    ∀ s : List Char, pat <:+: s →
      ∃ x y, s = x ++ pat ++ y ∧ ¬ pat <:+: (x ++ pat).dropLast ∧
        replaceFirst pat rep s = x ++ rep ++ y := by
  intro s
  induction s with
  | nil =>
    intro hocc
    exact absurd (List.infix_nil.mp hocc) hpat
  | cons c rest ih =>
    intro hocc
    by_cases hpre : pat.isPrefixOf (c :: rest)
    · refine ⟨[], (c :: rest).drop pat.length, ?_, ?_, ?_⟩
      · obtain ⟨t, ht⟩ := List.isPrefixOf_iff_prefix.mp hpre
        simp [← ht]
      · intro hbad
        have hlen := hbad.length_le
        have hlt : pat.length - 1 < pat.length :=
          Nat.sub_lt (List.length_pos.mpr hpat) Nat.one_pos
        simp only [List.nil_append, List.length_dropLast] at hlen
        omega
      · simp [replaceFirst, hpre]
    · have hnotpre : ¬ pat <+: (c :: rest) := fun h =>
        hpre (List.isPrefixOf_iff_prefix.mpr h)
      have hrest : pat <:+: rest := by
        rcases List.infix_cons_iff.mp hocc with h | h
        · exact absurd h hnotpre
        · exact h
      obtain ⟨x, y, hxy, hfirst, hrepl⟩ := ih hrest
      refine ⟨c :: x, y, by simp [hxy], ?_, ?_⟩
      · intro hbad
        have hne : (x ++ pat) ≠ [] := by
          simp [hpat]
        rw [show (c :: x ++ pat : List Char) = c :: (x ++ pat) by simp,
          List.dropLast_cons_of_ne_nil hne] at hbad
        rcases List.infix_cons_iff.mp hbad with h | h
        · -- a prefix occurrence here would be a prefix occurrence in `c :: rest`
          apply hnotpre
          have hsub : (c :: (x ++ pat).dropLast) <+: (c :: rest) := by
            refine List.cons_prefix_cons.mpr ⟨rfl, ?_⟩
            have h1 : (x ++ pat).dropLast <+: (x ++ pat) := List.dropLast_prefix _
            have h2 : (x ++ pat) <+: ((x ++ pat) ++ y) := List.prefix_append _ _
            have h3 : rest = (x ++ pat) ++ y := by simp [hxy]
            rw [h3]
            exact h1.trans h2
          exact h.trans hsub
        · exact hfirst h
      · simp [replaceFirst, hpre, hrepl]

/-! ### Patch engine constants (source lines 8–9, 12–88, 282–304)

All string constants are transcribed byte-for-byte from the script; literal
braces are written with `\x7b` / `\x7d` escapes. -/

/-- The `PATCH_MARKER` constant (source line 9). -/
def PATCH_MARKER : List Char := "/*codex-darcula-patch*/".data

/-- The `DARCULA_CSS` template literal (source lines 12–88): the patch
marker followed by the CSS payload. -/
def DARCULA_CSS : List Char :=
  PATCH_MARKER ++
  "\n:root,\nhtml,\nbody,\n#root \x7b\n  color-scheme: dark !important;\n  background: #2b2b2b !important;\n  color: #a9b7c6 !important;\n\x7d\n\n* \x7b\n  border-color: #4e5254 !important;\n\x7d\n\nmain,\nsection,\narticle,\naside,\nheader,\nfooter,\nnav,\ndiv[data-panel],\n[data-theme=\"dark\"] \x7b\n  background-color: #2b2b2b !important;\n  color: #a9b7c6 !important;\n\x7d\n\naside,\nnav,\n[data-sidebar],\n[role=\"complementary\"] \x7b\n  background-color: #3c3f41 !important;\n\x7d\n\nbutton,\ninput,\ntextarea,\nselect,\n[role=\"button\"] \x7b\n  background-color: #3c3f41 !important;\n  color: #a9b7c6 !important;\n  border-color: #5c6164 !important;\n\x7d\n\nbutton:hover,\n[role=\"button\"]:hover \x7b\n  background-color: #4b5052 !important;\n\x7d\n\na \x7b\n  color: #589df6 !important;\n\x7d\n\na:hover \x7b\n  color: #73b1ff !important;\n\x7d\n\npre,\ncode \x7b\n  background-color: #313335 !important;\n  color: #a9b7c6 !important;\n\x7d\n\n::selection \x7b\n  background: #214283 !important;\n  color: #dfe6ee !important;\n\x7d\n\n::-webkit-scrollbar-thumb \x7b\n  background: #5c6164 !important;\n  border-radius: 8px !important;\n\x7d\n\n::-webkit-scrollbar-track \x7b\n  background: #2b2b2b !important;\n\x7d\n".data

/-- The first literal anchor `themeSourceAnchor` (source lines 282–283). -/
def themeSourceAnchor : List Char :=
  "function dB(t)\x7bt===\"light\"||t===\"dark\"?U.nativeTheme.themeSource=t:U.nativeTheme.themeSource=\"system\"\x7d".data

/-- Hex digit used by the JSON string escaper. -/
def hexDigit (n : Nat) : Char :=
  if n < 10 then Char.ofNat (48 + n) else Char.ofNat (87 + n)

/-- Escaping of one character as performed by `JSON.stringify` on strings. -/
def jsonEscapeChar (c : Char) : List Char :=
  if c = '"' then ['\\', '"']
  else if c = '\\' then ['\\', '\\']
  else if c = '\n' then ['\\', 'n']
  else if c = '\r' then ['\\', 'r']
  else if c = '\t' then ['\\', 't']
  else if c = '\x08' then ['\\', 'b']
  else if c = '\x0c' then ['\\', 'f']
  else if c.toNat < 0x20 then
    ['\\', 'u', '0', '0', hexDigit (c.toNat / 16), hexDigit (c.toNat % 16)]
  else [c]

/-- Models `JSON.stringify` applied to a string value: the escaped text
wrapped in double quotes. -/
def jsonStringifyString (s : List Char) : List Char :=
  '"' :: (s.flatMap jsonEscapeChar) ++ ['"']

/-- The `helperCode` replacement text (source lines 289–291): the first
anchor followed by the CSS constant and the injection helper. -/
def helperCode : List Char :=
  themeSourceAnchor ++
  "const cdpDarculaCss=".data ++ jsonStringifyString DARCULA_CSS ++ ";".data ++
  "function cdpApplyDarcula(win)\x7bif(!win||win.isDestroyed())return;const apply=()=>\x7bif(win.isDestroyed())return;try\x7bconst wc=win.webContents;if(!wc||wc.isDestroyed())return;wc.insertCSS(cdpDarculaCss).catch(()=>\x7b\x7d);\x7dcatch\x7b\x7d\x7d;win.webContents.once(\"did-finish-load\",apply);if(!win.webContents.isLoadingMainFrame())apply();\x7d".data

/-- The second literal anchor `windowCreationAnchor` (source lines 295–296). -/
def windowCreationAnchor : List Char :=
  "this.installNativeContextMenu(y),l&&this.installLiquidGlass(y,u),!U.app.isPackaged".data

/-- The replacement inserted at the second anchor (source line 304). -/
def windowCreationReplacement : List Char :=
  "this.installNativeContextMenu(y),l&&this.installLiquidGlass(y,u),cdpApplyDarcula(y),!U.app.isPackaged".data

/-- The helper invocation checked by the post-condition (source line 307). -/
def applyCallText : List Char := "cdpApplyDarcula(y)".data

/-- Models `patchBundleSource` (source lines 277–312). Returns the patched
text together with the `alreadyPatched` flag, or the thrown error message. -/
def patchBundleSource (sourceText : List Char) :
    Except String (List Char × Bool) :=
  if includesText PATCH_MARKER sourceText then .ok (sourceText, true)
  else if !includesText themeSourceAnchor sourceText then
    .error "Could not find nativeTheme anchor in bundle"
  else
    let patched := replaceFirst themeSourceAnchor helperCode sourceText
    if !includesText windowCreationAnchor patched then
      .error "Could not find BrowserWindow hook anchor in bundle"
    else
      let patched2 :=
        replaceFirst windowCreationAnchor windowCreationReplacement patched
      if !includesText PATCH_MARKER patched2 ||
          !includesText applyCallText patched2 then
        .error "Patch verification failed"
      else .ok (patched2, false)

/-- Taxonomy predicate from the specification: both anchor-lookup failures
are of the `AnchorNotFoundError` kind, identified here by the two messages
thrown by the source at lines 286 and 299. -/
def isAnchorNotFoundError (msg : String) : Bool :=
  msg == "Could not find nativeTheme anchor in bundle" ||
  msg == "Could not find BrowserWindow hook anchor in bundle"

/-- C3: applying `patchBundleSource` to the result of a successful
application returns that result unchanged, flagged as already patched, so
applying the patch twice yields the same text as applying it once and never
double-inserts. -/
theorem patchBundleSource_idempotent (s t : List Char) (b : Bool)
    (h : patchBundleSource s = .ok (t, b)) :
    patchBundleSource t = .ok (t, true) := by
  cases h1 : includesText PATCH_MARKER s with
  | true =>
    simp only [patchBundleSource, h1, if_true] at h
    obtain ⟨rfl, rfl⟩ : s = t ∧ true = b := by
      simpa using h
    simp [patchBundleSource, h1]
  | false =>
    cases h2 : includesText themeSourceAnchor s with
    | false => simp [patchBundleSource, h1, h2] at h
    | true =>
      cases h3 : includesText windowCreationAnchor
          (replaceFirst themeSourceAnchor helperCode s) with
      | false => simp [patchBundleSource, h1, h2, h3] at h
      | true =>
        cases h4 : includesText PATCH_MARKER
            (replaceFirst windowCreationAnchor windowCreationReplacement
              (replaceFirst themeSourceAnchor helperCode s)) with
        | false => simp [patchBundleSource, h1, h2, h3, h4] at h
        | true =>
          cases h5 : includesText applyCallText
              (replaceFirst windowCreationAnchor windowCreationReplacement
                (replaceFirst themeSourceAnchor helperCode s)) with
          | false => simp [patchBundleSource, h1, h2, h3, h4, h5] at h
          | true =>
            simp only [patchBundleSource, h1, h2, h3, h4, h5] at h
            obtain ⟨rfl, -⟩ :
                replaceFirst windowCreationAnchor windowCreationReplacement
                  (replaceFirst themeSourceAnchor helperCode s) = t ∧
                  false = b := by
              simpa using h
            simp [patchBundleSource, h4]

/-- Witness for C3 at a concrete input: the marker itself is a fixed point
of the patch. -/
theorem patchBundleSource_idempotent_witness :
    patchBundleSource PATCH_MARKER = .ok (PATCH_MARKER, true) :=
  patchBundleSource_idempotent PATCH_MARKER PATCH_MARKER true (by rfl)

/-- C6: on marker-free input, `patchBundleSource` fails with the first
anchor-not-found message when the first anchor is absent, with the second
anchor-not-found message (the same error kind) when the second anchor is
absent from the intermediate text, fails with the verification message when
the final text lacks the marker or the helper invocation, and succeeds only
with a result containing both; the two anchor messages share the
`AnchorNotFoundError` kind, which the verification message does not. -/
theorem patchBundleSource_error_taxonomy (s : List Char)
    (hm : includesText PATCH_MARKER s = false) :
    (includesText themeSourceAnchor s = false →
      patchBundleSource s =
        .error "Could not find nativeTheme anchor in bundle") ∧
    (includesText themeSourceAnchor s = true →
      includesText windowCreationAnchor
        (replaceFirst themeSourceAnchor helperCode s) = false →
      patchBundleSource s =
        .error "Could not find BrowserWindow hook anchor in bundle") ∧
    (∀ t b, patchBundleSource s = .ok (t, b) →
      includesText PATCH_MARKER t = true ∧
        includesText applyCallText t = true) ∧
    (includesText themeSourceAnchor s = true →
      includesText windowCreationAnchor
        (replaceFirst themeSourceAnchor helperCode s) = true →
      (includesText PATCH_MARKER
          (replaceFirst windowCreationAnchor windowCreationReplacement
            (replaceFirst themeSourceAnchor helperCode s)) = false ∨
        includesText applyCallText
          (replaceFirst windowCreationAnchor windowCreationReplacement
            (replaceFirst themeSourceAnchor helperCode s)) = false) →
      patchBundleSource s = .error "Patch verification failed") ∧
    (isAnchorNotFoundError "Could not find nativeTheme anchor in bundle" =
        true ∧
      isAnchorNotFoundError
          "Could not find BrowserWindow hook anchor in bundle" = true ∧
      isAnchorNotFoundError "Patch verification failed" = false) := by
  refine ⟨?_, ?_, ?_, ?_, by decide⟩
  · intro h2
    simp [patchBundleSource, hm, h2]
  · intro h2 h3
    simp [patchBundleSource, hm, h2, h3]
  · intro t b h
    cases h2 : includesText themeSourceAnchor s with
    | false => simp [patchBundleSource, hm, h2] at h
    | true =>
      cases h3 : includesText windowCreationAnchor
          (replaceFirst themeSourceAnchor helperCode s) with
      | false => simp [patchBundleSource, hm, h2, h3] at h
      | true =>
        cases h4 : includesText PATCH_MARKER
            (replaceFirst windowCreationAnchor windowCreationReplacement
              (replaceFirst themeSourceAnchor helperCode s)) with
        | false => simp [patchBundleSource, hm, h2, h3, h4] at h
        | true =>
          cases h5 : includesText applyCallText
              (replaceFirst windowCreationAnchor windowCreationReplacement
                (replaceFirst themeSourceAnchor helperCode s)) with
          | false => simp [patchBundleSource, hm, h2, h3, h4, h5] at h
          | true =>
            simp only [patchBundleSource, hm, h2, h3, h4, h5] at h
            obtain ⟨rfl, -⟩ :
                replaceFirst windowCreationAnchor windowCreationReplacement
                  (replaceFirst themeSourceAnchor helperCode s) = t ∧
                  false = b := by
              simpa using h
            exact ⟨h4, h5⟩
  · intro h2 h3 hbad
    rcases hbad with h4 | h5
    · simp [patchBundleSource, hm, h2, h3, h4]
    · cases h4 : includesText PATCH_MARKER
          (replaceFirst windowCreationAnchor windowCreationReplacement
            (replaceFirst themeSourceAnchor helperCode s)) with
      | false => simp [patchBundleSource, hm, h2, h3, h4]
      | true => simp [patchBundleSource, hm, h2, h3, h4, h5]

/-- Witness for C6 at the empty input, which contains neither the marker
nor the first anchor. -/
theorem patchBundleSource_error_taxonomy_witness :
    patchBundleSource [] =
      .error "Could not find nativeTheme anchor in bundle" :=
  (patchBundleSource_error_taxonomy [] (by rfl)).1 (by rfl)

/-- C10: a successful fresh patch rewrites only the first occurrence of
each anchor: the input splits at the first occurrence of the first anchor,
the helper is appended exactly there with the rest of the text kept
byte-for-byte, and the hook call is inserted exactly at the first
occurrence of the second anchor in the intermediate text. -/
theorem patchBundleSource_first_occurrence (s t : List Char)
    (hm : includesText PATCH_MARKER s = false)
    (h : patchBundleSource s = .ok (t, false)) :
    ∃ x y u v,
      s = x ++ themeSourceAnchor ++ y ∧
      ¬ themeSourceAnchor <:+: (x ++ themeSourceAnchor).dropLast ∧
      x ++ helperCode ++ y = u ++ windowCreationAnchor ++ v ∧
      ¬ windowCreationAnchor <:+: (u ++ windowCreationAnchor).dropLast ∧
      t = u ++ windowCreationReplacement ++ v := by
  cases h2 : includesText themeSourceAnchor s with
  | false => simp [patchBundleSource, hm, h2] at h
  | true =>
    cases h3 : includesText windowCreationAnchor
        (replaceFirst themeSourceAnchor helperCode s) with
    | false => simp [patchBundleSource, hm, h2, h3] at h
    | true =>
      cases h4 : includesText PATCH_MARKER
          (replaceFirst windowCreationAnchor windowCreationReplacement
            (replaceFirst themeSourceAnchor helperCode s)) with
      | false => simp [patchBundleSource, hm, h2, h3, h4] at h
      | true =>
        cases h5 : includesText applyCallText
            (replaceFirst windowCreationAnchor windowCreationReplacement
              (replaceFirst themeSourceAnchor helperCode s)) with
        | false => simp [patchBundleSource, hm, h2, h3, h4, h5] at h
        | true =>
          simp only [patchBundleSource, hm, h2, h3, h4, h5] at h
          obtain ⟨rfl, -⟩ :
              replaceFirst windowCreationAnchor windowCreationReplacement
                (replaceFirst themeSourceAnchor helperCode s) = t ∧
                (false : Bool) = false := by
            simpa using h
          obtain ⟨x, y, hs, hfirst, hrepl⟩ :=
            replaceFirst_spec themeSourceAnchor helperCode (by decide) s
              ((includesText_iff _ _).mp h2)
          obtain ⟨u, v, hmid, hfirst2, hrepl2⟩ :=
            replaceFirst_spec windowCreationAnchor windowCreationReplacement
              (by decide) (replaceFirst themeSourceAnchor helperCode s)
              ((includesText_iff _ _).mp h3)
          refine ⟨x, y, u, v, hs, hfirst, ?_, hfirst2, hrepl2⟩
          rw [← hrepl]
          exact hmid

/-- Witness for C10: patching the concatenation of the two anchors. -/
theorem patchBundleSource_first_occurrence_witness :
    ∃ x y u v,
      themeSourceAnchor ++ windowCreationAnchor =
        x ++ themeSourceAnchor ++ y ∧
      ¬ themeSourceAnchor <:+: (x ++ themeSourceAnchor).dropLast ∧
      x ++ helperCode ++ y = u ++ windowCreationAnchor ++ v ∧
      ¬ windowCreationAnchor <:+: (u ++ windowCreationAnchor).dropLast ∧
      replaceFirst windowCreationAnchor windowCreationReplacement
          (replaceFirst themeSourceAnchor helperCode
            (themeSourceAnchor ++ windowCreationAnchor)) =
        u ++ windowCreationReplacement ++ v :=
  patchBundleSource_first_occurrence
    (themeSourceAnchor ++ windowCreationAnchor)
    (replaceFirst windowCreationAnchor windowCreationReplacement
      (replaceFirst themeSourceAnchor helperCode
        (themeSourceAnchor ++ windowCreationAnchor)))
    (by rfl) (by rfl)

/-! ### Container codec data model

The asar header is the JSON tree stored after the 16-byte prelude.  A node
with a `files` property is a directory; any other node is a leaf entry.
Leaf metadata is modelled by `FileMeta`; fields the script never rewrites
(`executable` flags and the like, spread-copied by `{ ...entry }`) are
collected in the opaque `extra` string.  Offsets and sizes may be stored as
JSON numbers or as decimal strings; `JsonNum.decStr n` stands for the
decimal string `String(n)` (the script's own `String(runningOffset)` always
has this shape), `JsonNum.nonNum` for any string on which JavaScript's
`Number()` yields `NaN`.  Values are modelled as ideal integers: the
double-precision rounding of `Number()` beyond 2^53, irrelevant for real
containers, is outside the model. -/

/-- A JSON value used in an offset or size position. -/
inductive JsonNum where
  | ofNum (x : Int)
  | decStr (n : Nat)
  | nonNum (s : String)
deriving DecidableEq

/-- Models `Number(v)` on an optional offset/size field; `none` is `NaN`
(also produced by `Number(undefined)` when the field is absent). -/
def jsNumber : Option JsonNum → Option Int
  | some (.ofNum x) => some x
  | some (.decStr n) => some (n : Int)
  | some (.nonNum _) => none
  | none => none

/-- A per-entry integrity record, source lines 218–223. -/
structure Integrity where
  algorithm : String
  hash : String
  blockSize : Nat
  blocks : List String
deriving DecidableEq

/-- Metadata of a leaf entry of the header tree. -/
structure FileMeta where
  offset : Option JsonNum := none
  size : Option JsonNum := none
  unpacked : Bool := false
  integrity : Option Integrity := none
  extra : String := ""
deriving DecidableEq

mutual

/-- The header tree: a node with a `files` object is a directory, any
other node is a leaf. -/
inductive AsarNode where
  | file (meta : FileMeta)
  | dir (extra : String) (files : AsarFiles)

/-- The ordered name-to-node bindings of one `files` object (a JSON
object in the source; an explicit cons-list here so that all recursions
over the tree are structural). -/
inductive AsarFiles where
  | nil
  | cons (name : String) (child : AsarNode) (rest : AsarFiles)

end

/-! ### Byte-level primitives -/

/-- Models `buffer.readUInt32LE(i)` for an in-bounds read (the source
checks the buffer length before every use). -/
def readUInt32LE (b : Bytes) (i : Nat) : Nat :=
  b.getD i 0 + 256 * b.getD (i + 1) 0 + 65536 * b.getD (i + 2) 0 +
    16777216 * b.getD (i + 3) 0

/-- The four bytes written by `buffer.writeUInt32LE(value)`; only applied
to range-checked values. -/
def writeUInt32LE (value : Nat) : Bytes :=
  [value % 256, value / 256 % 256, value / 65536 % 256,
    value / 16777216 % 256]

/-- Models `buffer.slice(s, e)` (Node `Buffer.prototype.slice`, i.e.
`subarray` semantics: negative indices count from the end, out-of-range
indices are clamped, and a crossed range yields an empty buffer). -/
def bufSlice (b : Bytes) (s e : Int) : Bytes :=
  let len : Int := b.length
  let s1 := if s < 0 then max (len + s) 0 else min s len
  let e1 := if e < 0 then max (len + e) 0 else min e len
  (b.take e1.toNat).drop s1.toNat

/-! ### parseAsar and getAsarHeaderHash (source lines 137–171)

`JSON.parse` of the header slice is the external JSON library, modelled by
a universally quantified partial parse function `jp`; a `none` result
models the `SyntaxError` thrown by `JSON.parse`.  Likewise SHA-256 is a
universally quantified `sha : Bytes → String`. -/

/-- Models `parseAsar(buffer)` (source lines 150–171): returns the parsed
header, the declared header JSON length, and the data-region offset. -/
def parseAsar (jp : Bytes → Option AsarNode) (buffer : Bytes) :
    Except String (AsarNode × Nat × Nat) :=
  if buffer.length < 20 then .error "Invalid asar: too small"
  else
    let headerJsonLength := readUInt32LE buffer 12
    let headerEnd := 16 + headerJsonLength
    if headerEnd > buffer.length then
      .error "Invalid asar: header length exceeds file size"
    else
      match jp (bufSlice buffer 16 headerEnd) with
      | some header => .ok (header, headerJsonLength, headerEnd)
      | none => .error "SyntaxError: JSON.parse"

/-- Models `getAsarHeaderHash(asarBuffer)` (source lines 137–148): the
digest of exactly the declared header span. -/
def getAsarHeaderHash (sha : Bytes → String) (asarBuffer : Bytes) :
    Except String String :=
  if asarBuffer.length < 20 then .error "Invalid asar: too small"
  else
    let headerJsonLength := readUInt32LE asarBuffer 12
    let headerEnd := 16 + headerJsonLength
    if headerEnd > asarBuffer.length then
      .error "Invalid asar: header length exceeds file size"
    else .ok (sha (bufSlice asarBuffer 16 headerEnd))

/-! ### walkLeafEntries and extractFileMap (source lines 173–206)

`walkLeafEntries` is visitor-style in the source; here it returns the
ordered list of visited `(relPath, entry)` pairs, and its callers fold over
that list in visit order. -/

/-- The slash-joined relative path `prefix ? prefix + "/" + name : name`
used by both traversals (source lines 176 and 235). -/
def relOf (pre name : String) : String :=
  if pre = "" then name else pre ++ "/" ++ name

mutual

/-- Models `walkLeafEntries(node, prefix, visitor)` as the ordered list of
visited leaf entries. -/
def walkLeafEntries : AsarNode → String → List (String × FileMeta)
  | .file _, _ => []
  | .dir _ files, pre => walkLeafFiles files pre

/-- The iteration of `walkLeafEntries` over one `files` object. -/
def walkLeafFiles : AsarFiles → String → List (String × FileMeta)
  | .nil, _ => []
  | .cons name entry rest, pre =>
    (match entry with
     | .dir _ fs => walkLeafFiles fs (relOf pre name)
     | .file meta => [(relOf pre name, meta)]) ++ walkLeafFiles rest pre

end

/-- Lookup in the extracted file map (JS `Map.prototype.get`;
`none` is `undefined`). -/
def mapGet (m : List (String × Bytes)) (k : String) : Option Bytes :=
  match m with
  | [] => none
  | (k1, v) :: rest => if k1 = k then some v else mapGet rest k

/-- Models `Map.prototype.set`: overwrite in place when the key exists
(JS maps keep the original insertion position), append otherwise. -/
def mapSet (m : List (String × Bytes)) (k : String) (v : Bytes) :
    List (String × Bytes) :=
  match m with
  | [] => [(k, v)]
  | (k1, v1) :: rest =>
    if k1 = k then (k, v) :: rest else (k1, v1) :: mapSet rest k v

/-- The per-entry body of `extractFileMap`'s visitor, folded over the
visit list (source lines 188–203). -/
def extractEntries (asarBuffer : Bytes) (dataOffset : Nat) :
    List (String × FileMeta) → List (String × Bytes) →
    Except String (List (String × Bytes))
  | [], m => .ok m
  | (relPath, entry) :: rest, m =>
    if entry.unpacked then extractEntries asarBuffer dataOffset rest m
    else
      match jsNumber entry.offset, jsNumber entry.size with
      | some offset, some size =>
        let start : Int := (dataOffset : Int) + offset
        let endPos : Int := start + size
        if start < 0 ∨ endPos > (asarBuffer.length : Int) then
          .error ("Invalid entry offsets for " ++ relPath)
        else
          extractEntries asarBuffer dataOffset rest
            (mapSet m relPath (bufSlice asarBuffer start endPos))
      | _, _ => .error ("Invalid entry offsets for " ++ relPath)

/-- Models `extractFileMap(asarBuffer, header, dataOffset)` (source lines
185–206). -/
def extractFileMap (asarBuffer : Bytes) (header : AsarNode)
    (dataOffset : Nat) : Except String (List (String × Bytes)) :=
  extractEntries asarBuffer dataOffset (walkLeafEntries header "") []

/-! ### buildAsar (source lines 208–275) -/

/-- The `INTEGRITY_BLOCK_SIZE` constant (source line 10). -/
def INTEGRITY_BLOCK_SIZE : Nat := 4 * 1024 * 1024

/-- The block digests computed by the loop in `computeEntryIntegrity`
(source lines 213–217). -/
def integrityBlocks (sha : Bytes → String) (fileBuffer : Bytes) :
    List String :=
  if fileBuffer = [] then []
  else
    sha (fileBuffer.take INTEGRITY_BLOCK_SIZE) ::
      integrityBlocks sha (fileBuffer.drop INTEGRITY_BLOCK_SIZE)
termination_by fileBuffer.length
decreasing_by
  simp only [List.length_drop]
  have : fileBuffer.length ≠ 0 := by
    simpa [List.length_eq_zero] using ‹fileBuffer ≠ []›
  simp [INTEGRITY_BLOCK_SIZE]
  omega

/-- Models `computeEntryIntegrity(fileBuffer)` (source lines 212–224). -/
def computeEntryIntegrity (sha : Bytes → String) (fileBuffer : Bytes) :
    Integrity :=
  { algorithm := "SHA256", hash := sha fileBuffer,
    blockSize := INTEGRITY_BLOCK_SIZE,
    blocks := integrityBlocks sha fileBuffer }

mutual

/-- Models `rebuildNode(node, prefix)` (source lines 226–263); the mutable
closure state `chunks` / `runningOffset` is threaded explicitly. -/
def rebuildNode (sha : Bytes → String) (fileMap : List (String × Bytes)) :
    AsarNode → String → List Bytes → Nat →
    Except String (AsarNode × List Bytes × Nat)
  | .file meta, _, chunks, runningOffset => .ok (.file meta, chunks, runningOffset)
  | .dir extra files, pre, chunks, runningOffset => do
    let (files2, chunks2, off2) ←
      rebuildFiles sha fileMap files pre chunks runningOffset
    .ok (.dir extra files2, chunks2, off2)

/-- The iteration of `rebuildNode` over one `files` object. -/
def rebuildFiles (sha : Bytes → String) (fileMap : List (String × Bytes)) :
    AsarFiles → String → List Bytes → Nat →
    Except String (AsarFiles × List Bytes × Nat)
  | .nil, _, chunks, off => .ok (.nil, chunks, off)
  | .cons name entry rest, pre, chunks, off =>
    match entry with
    | .dir extra fs => do
      let (fs2, c2, o2) ← rebuildFiles sha fileMap fs (relOf pre name) chunks off
      let (rest2, c3, o3) ← rebuildFiles sha fileMap rest pre c2 o2
      .ok (.cons name (.dir extra fs2) rest2, c3, o3)
    | .file meta =>
      if meta.unpacked then do
        let (rest2, c2, o2) ← rebuildFiles sha fileMap rest pre chunks off
        .ok (.cons name (.file meta) rest2, c2, o2)
      else
        match mapGet fileMap (relOf pre name) with
        | none => .error ("Missing data for file: " ++ relOf pre name)
        | some fileBuffer => do
          let meta2 : FileMeta :=
            { meta with
              offset := some (.decStr off),
              size := some (.ofNum (fileBuffer.length : Int)),
              integrity := some (computeEntryIntegrity sha fileBuffer) }
          let (rest2, c2, o2) ←
            rebuildFiles sha fileMap rest pre (chunks ++ [fileBuffer])
              (off + fileBuffer.length)
          .ok (.cons name (.file meta2) rest2, c2, o2)

end

/-- The largest value `writeUInt32LE` accepts; Node throws a `RangeError`
beyond it. -/
def UINT32_MAX : Nat := 4294967295

/-- Models `buildAsar(header, fileMap)` (source lines 208–275), with the
header serialisation `JSON.stringify` abstracted as `ss`. -/
def buildAsar (sha : Bytes → String) (ss : AsarNode → Bytes)
    (header : AsarNode) (fileMap : List (String × Bytes)) :
    Except String Bytes := do
  let (rebuiltHeader, chunks, _) ← rebuildNode sha fileMap header "" [] 0
  let headerJsonBuffer := ss rebuiltHeader
  if headerJsonBuffer.length + 8 > UINT32_MAX then
    .error "RangeError: value out of range"
  else
    .ok (writeUInt32LE 4 ++ writeUInt32LE (headerJsonBuffer.length + 8) ++
      writeUInt32LE (headerJsonBuffer.length + 4) ++
      writeUInt32LE headerJsonBuffer.length ++
      headerJsonBuffer ++ chunks.flatten)

/-! ### The layout performed by rebuildNode, stated as walk-list functions

The specification describes `rebuild` in terms of the extraction traversal:
packed entries are re-laid-out contiguously in traversal order at running
offsets, unpacked entries are copied unchanged and contribute no bytes.
`relayoutList`, `packedBufs` and `sumLens` state exactly that over the
visit list of `walkLeafEntries`; the `none` branches are unreachable
whenever `rebuildNode` succeeds. -/

/-- Total size of a list of buffers. -/
def sumLens (l : List Bytes) : Nat := (l.map List.length).sum

/-- The claimed relayout: each packed entry in traversal order gets the
running total as its offset, its buffer length as its size and a freshly
computed integrity record; unpacked entries pass through unchanged. -/
def relayoutList (sha : Bytes → String) (fileMap : List (String × Bytes)) :
    List (String × FileMeta) → Nat → List (String × FileMeta)
  | [], _ => []
  | (p, e) :: rest, off =>
    if e.unpacked then (p, e) :: relayoutList sha fileMap rest off
    else
      match mapGet fileMap p with
      | some b =>
        (p, { e with
              offset := some (.decStr off),
              size := some (.ofNum (b.length : Int)),
              integrity := some (computeEntryIntegrity sha b) }) ::
          relayoutList sha fileMap rest (off + b.length)
      | none => (p, e) :: relayoutList sha fileMap rest off

/-- The buffers of the packed entries, in traversal order: the claimed
data region. -/
def packedBufs (fileMap : List (String × Bytes)) :
    List (String × FileMeta) → List Bytes
  | [] => []
  | (p, e) :: rest =>
    if e.unpacked then packedBufs fileMap rest
    else
      match mapGet fileMap p with
      | some b => b :: packedBufs fileMap rest
      | none => packedBufs fileMap rest

theorem sumLens_append (A B : List Bytes) :
    sumLens (A ++ B) = sumLens A + sumLens B := by
  simp [sumLens]

theorem packedBufs_append (m : List (String × Bytes))
    (A B : List (String × FileMeta)) :
    packedBufs m (A ++ B) = packedBufs m A ++ packedBufs m B := by
  induction A with
  | nil => simp [packedBufs]
  | cons pe rest ih =>
    obtain ⟨p, e⟩ := pe
    by_cases hu : e.unpacked
    · simp [packedBufs, hu, ih]
    · cases hg : mapGet m p <;> simp [packedBufs, hu, hg, ih]

theorem relayoutList_append (sha : Bytes → String)
    (m : List (String × Bytes)) (A B : List (String × FileMeta)) :
    ∀ off : Nat,
      relayoutList sha m (A ++ B) off =
        relayoutList sha m A off ++
          relayoutList sha m B (off + sumLens (packedBufs m A)) := by
  induction A with
  | nil => intro off; simp [relayoutList, packedBufs, sumLens]
  | cons pe rest ih =>
    intro off
    obtain ⟨p, e⟩ := pe
    by_cases hu : e.unpacked
    · simp [relayoutList, packedBufs, hu, ih]
    · cases hg : mapGet m p with
      | none => simp [relayoutList, packedBufs, hu, hg, ih]
      | some b =>
        simp [relayoutList, packedBufs, hu, hg, ih, sumLens, Nat.add_assoc]

theorem exceptBind_ok {ε α β : Type} (a : α) (f : α → Except ε β) :
    (Except.ok a >>= f) = f a := rfl

theorem exceptBind_err {ε α β : Type} (e : ε) (f : α → Except ε β) :
    ((Except.error e : Except ε α) >>= f) = Except.error e := rfl

/-- Success of `rebuildFiles` is fully described by the relayout functions
over the visit list, and implies that every packed entry's path is present
in the file map. -/
theorem rebuildFiles_spec (sha : Bytes → String)
    (m : List (String × Bytes)) :
    ∀ (files : AsarFiles) (pre : String)
      (chunks : List Bytes) (off : Nat) (files2 : AsarFiles)
      (chunks2 : List Bytes) (off2 : Nat),
      rebuildFiles sha m files pre chunks off = .ok (files2, chunks2, off2) →
      walkLeafFiles files2 pre =
        relayoutList sha m (walkLeafFiles files pre) off ∧
      chunks2 = chunks ++ packedBufs m (walkLeafFiles files pre) ∧
      off2 = off + sumLens (packedBufs m (walkLeafFiles files pre)) ∧
      (∀ pe ∈ walkLeafFiles files pre, pe.2.unpacked = false →
        mapGet m pe.1 ≠ none) := by
  intro files pre chunks off
  induction files, pre, chunks, off using rebuildFiles.induct sha m with
  | case1 pre chunks off =>
    intro files2 chunks2 off2 h
    simp only [rebuildFiles] at h
    obtain ⟨rfl, rfl, rfl⟩ :
        AsarFiles.nil = files2 ∧ chunks = chunks2 ∧ off = off2 := by
      simpa using h
    simp [walkLeafFiles, relayoutList, packedBufs, sumLens]
  | case2 name rest pre chunks off extra fs ih1 ih2 =>
    intro files2 chunks2 off2 h
    simp only [rebuildFiles] at h
    cases hfs : rebuildFiles sha m fs (relOf pre name) chunks off with
    | error e => rw [hfs] at h; simp [exceptBind_err] at h
    | ok r1 =>
      obtain ⟨fs2, c2, o2⟩ := r1
      rw [hfs] at h
      simp only [exceptBind_ok] at h
      cases hrest : rebuildFiles sha m rest pre c2 o2 with
      | error e => rw [hrest] at h; simp [exceptBind_err] at h
      | ok r2 =>
        obtain ⟨rest2, c3, o3⟩ := r2
        rw [hrest] at h
        simp only [exceptBind_ok] at h
        obtain ⟨rfl, rfl, rfl⟩ :
            AsarFiles.cons name (AsarNode.dir extra fs2) rest2 = files2 ∧
              c3 = chunks2 ∧ o3 = off2 := by
          simpa using h
        obtain ⟨hw1, hc1, ho1, hm1⟩ := ih1 fs2 c2 o2 hfs
        obtain ⟨hw2, hc2, ho2, hm2⟩ := ih2 c2 o2 rest2 c3 o3 hrest
        refine ⟨?_, ?_, ?_, ?_⟩
        · simp only [walkLeafFiles, relayoutList_append]
          rw [hw1, hw2, ho1]
        · simp only [walkLeafFiles, packedBufs_append]
          rw [hc2, hc1, List.append_assoc]
        · simp only [walkLeafFiles, packedBufs_append, sumLens_append]
          omega
        · intro pe hpe hu
          simp only [walkLeafFiles, List.mem_append] at hpe
          rcases hpe with hpe | hpe
          · exact hm1 pe hpe hu
          · exact hm2 pe hpe hu
  | case3 name rest pre chunks off meta hu ih =>
    intro files2 chunks2 off2 h
    simp only [rebuildFiles, hu, if_true] at h
    cases hrest : rebuildFiles sha m rest pre chunks off with
    | error e => rw [hrest] at h; simp [exceptBind_err] at h
    | ok r2 =>
      obtain ⟨rest2, c2, o2⟩ := r2
      rw [hrest] at h
      simp only [exceptBind_ok] at h
      obtain ⟨rfl, rfl, rfl⟩ :
          AsarFiles.cons name (AsarNode.file meta) rest2 = files2 ∧
            c2 = chunks2 ∧ o2 = off2 := by
        simpa using h
      obtain ⟨hw, hc, ho, hm⟩ := ih rest2 c2 o2 hrest
      refine ⟨?_, ?_, ?_, ?_⟩
      · simp only [walkLeafFiles, relayoutList, hu, if_true,
          List.singleton_append]
        rw [hw]
        simp
      · simpa [walkLeafFiles, packedBufs, hu] using hc
      · simpa [walkLeafFiles, packedBufs, hu] using ho
      · intro pe hpe hup
        simp only [walkLeafFiles, List.singleton_append, List.mem_cons] at hpe
        rcases hpe with hpe | hpe
        · subst hpe
          simp only at hup
          simp [hup] at hu
        · exact hm pe hpe hup
  | case4 name rest pre chunks off meta hu hget =>
    intro files2 chunks2 off2 h
    simp only [rebuildFiles, if_neg hu, hget] at h
    cases h
  | case5 name rest pre chunks off meta hu fileBuffer hget ih =>
    intro files2 chunks2 off2 h
    simp only [rebuildFiles, if_neg hu, hget] at h
    cases hrest : rebuildFiles sha m rest pre (chunks ++ [fileBuffer])
        (off + fileBuffer.length) with
    | error e => rw [hrest] at h; simp [exceptBind_err] at h
    | ok r2 =>
      obtain ⟨rest2, c2, o2⟩ := r2
      rw [hrest] at h
      simp only [exceptBind_ok] at h
      obtain ⟨rfl, rfl, rfl⟩ :
          AsarFiles.cons name (AsarNode.file
            { meta with
              offset := some (.decStr off),
              size := some (.ofNum (fileBuffer.length : Int)),
              integrity := some (computeEntryIntegrity sha fileBuffer) })
              rest2 = files2 ∧ c2 = chunks2 ∧ o2 = off2 := by
        simpa using h
      obtain ⟨hw, hc, ho, hm⟩ := ih rest2 c2 o2 hrest
      have hub : meta.unpacked = false := by
        simpa using hu
      refine ⟨?_, ?_, ?_, ?_⟩
      · simp only [walkLeafFiles, relayoutList, hub, Bool.false_eq_true,
          if_false, hget, List.singleton_append]
        rw [hw]
        simp
      · simp only [walkLeafFiles, packedBufs, hub, Bool.false_eq_true,
          if_false, hget, List.singleton_append]
        rw [hc]
        simp
      · simp only [walkLeafFiles, packedBufs, hub, Bool.false_eq_true,
          if_false, hget, List.singleton_append]
        rw [ho]
        simp [sumLens]
        omega
      · intro pe hpe hup
        simp only [walkLeafFiles, List.singleton_append, List.mem_cons] at hpe
        rcases hpe with hpe | hpe
        · subst hpe
          simp only [hget]
          exact fun hcon => by cases hcon
        · exact hm pe hpe hup

/-- Walk-list description of a successful top-level `rebuildNode` run. -/
theorem rebuildNode_spec (sha : Bytes → String) (m : List (String × Bytes))
    (header h2 : AsarNode) (chunks : List Bytes) (total : Nat)
    (h : rebuildNode sha m header "" [] 0 = .ok (h2, chunks, total)) :
    walkLeafEntries h2 "" =
      relayoutList sha m (walkLeafEntries header "") 0 ∧
    chunks = packedBufs m (walkLeafEntries header "") ∧
    total = sumLens (packedBufs m (walkLeafEntries header "")) ∧
    (∀ pe ∈ walkLeafEntries header "", pe.2.unpacked = false →
      mapGet m pe.1 ≠ none) := by
  cases header with
  | file meta =>
    simp only [rebuildNode] at h
    obtain ⟨rfl, rfl, rfl⟩ :
        AsarNode.file meta = h2 ∧ [] = chunks ∧ 0 = total := by
      simpa using h
    simp [walkLeafEntries, relayoutList, packedBufs, sumLens]
  | dir extra files =>
    simp only [rebuildNode] at h
    cases hfs : rebuildFiles sha m files "" [] 0 with
    | error e => rw [hfs] at h; simp [exceptBind_err] at h
    | ok r =>
      obtain ⟨files2, c2, o2⟩ := r
      rw [hfs] at h
      simp only [exceptBind_ok] at h
      obtain ⟨rfl, rfl, rfl⟩ :
          AsarNode.dir extra files2 = h2 ∧ c2 = chunks ∧ o2 = total := by
        simpa using h
      obtain ⟨hw, hc, ho, hm⟩ := rebuildFiles_spec sha m files "" [] 0
        files2 c2 o2 hfs
      exact ⟨by simpa [walkLeafEntries] using hw,
        by simpa using hc, by simpa using ho,
        by simpa [walkLeafEntries] using hm⟩

/-! ### Slice and prelude arithmetic -/

theorem bufSlice_natCast (b : Bytes) (s e : Nat) (hs : s ≤ e)
    (he : e ≤ b.length) :
    bufSlice b (s : Int) (e : Int) = (b.drop s).take (e - s) := by
  have h0 : ¬ ((s : Int) < 0) := by omega
  have h0e : ¬ ((e : Int) < 0) := by omega
  have h1 : (s : Int) ⊓ (b.length : Int) = (s : Int) := by omega
  have h2 : (e : Int) ⊓ (b.length : Int) = (e : Int) := by omega
  simp only [bufSlice, if_neg h0, if_neg h0e, h1, h2, Int.toNat_natCast]
  rw [List.drop_take]

/-- A slice that starts exactly at a known decomposition point returns the
leading block of the tail. -/
theorem bufSlice_of_drop (out b t : Bytes) (n : Nat) (hn : n ≤ out.length)
    (hdrop : out.drop n = b ++ t) :
    n + b.length ≤ out.length ∧
      bufSlice out ((n : Nat) : Int) ((n + b.length : Nat) : Int) = b := by
  have hlen : out.length - n = b.length + t.length := by
    have := congrArg List.length hdrop
    simpa [List.length_drop] using this
  have hb : n + b.length ≤ out.length := by omega
  refine ⟨hb, ?_⟩
  rw [bufSlice_natCast out n (n + b.length) (by omega) hb]
  rw [hdrop]
  simp

/-- Reading back the header-length field written by `buildAsar`. -/
theorem readUInt32LE_concat (p : Bytes) (hp : p.length = 12) (v : Nat)
    (hv : v < 4294967296) (t : Bytes) :
    readUInt32LE (p ++ (writeUInt32LE v ++ t)) 12 = v := by
  unfold readUInt32LE
  rw [List.getD_append_right p _ 0 12 (by omega),
    List.getD_append_right p _ 0 13 (by omega),
    List.getD_append_right p _ 0 14 (by omega),
    List.getD_append_right p _ 0 15 (by omega), hp]
  simp only [writeUInt32LE]
  norm_num [List.getD]
  omega

/-- Inversion of a successful `buildAsar` run. -/
theorem buildAsar_ok (sha : Bytes → String) (ss : AsarNode → Bytes)
    (header : AsarNode) (m : List (String × Bytes)) (out : Bytes)
    (hbuild : buildAsar sha ss header m = .ok out) :
    ∃ h2 chunks total,
      rebuildNode sha m header "" [] 0 = .ok (h2, chunks, total) ∧
      (ss h2).length + 8 ≤ UINT32_MAX ∧
      out = writeUInt32LE 4 ++ writeUInt32LE ((ss h2).length + 8) ++
        writeUInt32LE ((ss h2).length + 4) ++ writeUInt32LE (ss h2).length ++
        ss h2 ++ chunks.flatten := by
  unfold buildAsar at hbuild
  cases hre : rebuildNode sha m header "" [] 0 with
  | error e => rw [hre] at hbuild; simp [exceptBind_err] at hbuild
  | ok r =>
    obtain ⟨h2, chunks, total⟩ := r
    rw [hre] at hbuild
    simp only [exceptBind_ok] at hbuild
    by_cases hrange : (ss h2).length + 8 > UINT32_MAX
    · rw [if_pos hrange] at hbuild
      cases hbuild
    · rw [if_neg hrange] at hbuild
      refine ⟨h2, chunks, total, rfl, by omega, ?_⟩
      have := Except.ok.inj hbuild
      simp [← this]

/-! ### Extraction of a rebuilt container -/

/-- The specification's consecutive fixed-size chunking of a buffer. -/
def chunksOf (b : Bytes) : List Bytes :=
  if b = [] then []
  else b.take INTEGRITY_BLOCK_SIZE :: chunksOf (b.drop INTEGRITY_BLOCK_SIZE)
termination_by b.length
decreasing_by
  simp only [List.length_drop]
  have : b.length ≠ 0 := by
    simpa [List.length_eq_zero] using ‹b ≠ []›
  simp [INTEGRITY_BLOCK_SIZE]
  omega

/-- The block digests computed by the source loop are exactly the digests
of the consecutive chunks. -/
theorem integrityBlocks_eq_map (sha : Bytes → String) (b : Bytes) :
    integrityBlocks sha b = (chunksOf b).map sha := by
  induction b using chunksOf.induct with
  | case1 => rw [integrityBlocks, chunksOf]; simp
  | case2 b hb ih =>
    rw [integrityBlocks, chunksOf]
    rw [if_neg hb, if_neg hb]
    simp only [List.map_cons]
    rw [ih]

/-- The map produced by extracting a rebuilt container: every packed entry
found in the file map is re-inserted with its buffer from the map. -/
def rebuiltExtract (m : List (String × Bytes)) :
    List (String × FileMeta) → List (String × Bytes) →
    List (String × Bytes)
  | [], acc => acc
  | (p, e) :: rest, acc =>
    if e.unpacked then rebuiltExtract m rest acc
    else
      match mapGet m p with
      | some b => rebuiltExtract m rest (mapSet acc p b)
      | none => rebuiltExtract m rest acc

theorem mapGet_mapSet :
    ∀ (acc : List (String × Bytes)) (k : String) (v : Bytes) (q : String),
      mapGet (mapSet acc k v) q = if k = q then some v else mapGet acc q := by
  intro acc
  induction acc with
  | nil =>
    intro k v q
    by_cases h : k = q <;> simp [mapSet, mapGet, h]
  | cons kv rest ih =>
    intro k v q
    obtain ⟨k1, v1⟩ := kv
    by_cases h1 : k1 = k
    · subst h1
      by_cases h2 : k1 = q <;> simp [mapSet, mapGet, h2]
    · by_cases h2 : k1 = q
      · subst h2
        have hne : ¬ k = k1 := fun h => h1 h.symm
        simp [mapSet, mapGet, h1, hne]
      · simp [mapSet, mapGet, h1, h2, ih]

/-- Whether some packed entry of the visit list has the given path. -/
def hasPackedKey (walk : List (String × FileMeta)) (q : String) : Bool :=
  walk.any fun pe => pe.1 == q && !pe.2.unpacked

theorem hasPackedKey_nil (q : String) : hasPackedKey [] q = false := rfl

theorem hasPackedKey_cons (p : String) (e : FileMeta)
    (rest : List (String × FileMeta)) (q : String) :
    hasPackedKey ((p, e) :: rest) q =
      ((p == q && !e.unpacked) || hasPackedKey rest q) := by
  simp [hasPackedKey]

theorem rebuiltExtract_get (m : List (String × Bytes)) :
    ∀ (walk : List (String × FileMeta)) (acc : List (String × Bytes))
      (q : String),
      (∀ pe ∈ walk, pe.2.unpacked = false → mapGet m pe.1 ≠ none) →
      mapGet (rebuiltExtract m walk acc) q =
        if hasPackedKey walk q then mapGet m q else mapGet acc q := by
  intro walk
  induction walk with
  | nil => intro acc q hm; simp [rebuiltExtract, hasPackedKey_nil]
  | cons pe rest ih =>
    intro acc q hm
    obtain ⟨p, e⟩ := pe
    have hmrest : ∀ pe ∈ rest, pe.2.unpacked = false → mapGet m pe.1 ≠ none :=
      fun pe hpe => hm pe (List.mem_cons_of_mem _ hpe)
    cases hu : e.unpacked with
    | true =>
      simp only [rebuiltExtract, hu, if_true]
      rw [ih acc q hmrest, hasPackedKey_cons, hu]
      simp
    | false =>
      obtain ⟨b, hg⟩ : ∃ b, mapGet m p = some b := by
        cases hgg : mapGet m p with
        | none => exact absurd hgg (hm (p, e) (List.mem_cons_self _ _) hu)
        | some b => exact ⟨b, rfl⟩
      simp only [rebuiltExtract, hu, Bool.false_eq_true, if_false, hg]
      rw [ih (mapSet acc p b) q hmrest, hasPackedKey_cons, hu, mapGet_mapSet]
      cases hrest : hasPackedKey rest q with
      | true => simp
      | false =>
        by_cases hpq : p = q
        · subst hpq
          simp [hg]
        · simp [hpq]

/-- Keys never written by `extractEntries` keep their accumulator value;
in particular paths outside the packed visit list are absent from the
extracted map. -/
theorem extractEntries_get_of_notPacked (buf : Bytes) (D : Nat) :
    ∀ (walk : List (String × FileMeta)) (acc res : List (String × Bytes)),
      extractEntries buf D walk acc = .ok res →
      ∀ q, hasPackedKey walk q = false → mapGet res q = mapGet acc q := by
  intro walk
  induction walk with
  | nil =>
    intro acc res h q hq
    simp only [extractEntries] at h
    obtain rfl : acc = res := by simpa using h
    rfl
  | cons pe rest ih =>
    intro acc res h q hq
    obtain ⟨p, e⟩ := pe
    rw [hasPackedKey_cons] at hq
    simp only [Bool.or_eq_false_iff, Bool.and_eq_false_iff] at hq
    obtain ⟨hq1, hq2⟩ := hq
    cases hu : e.unpacked with
    | true =>
      simp only [extractEntries, hu, if_true] at h
      exact ih acc res h q hq2
    | false =>
      have hpq : ¬ p = q := by
        rcases hq1 with h1 | h1
        · simpa using h1
        · rw [hu] at h1; simp at h1
      simp only [extractEntries, hu, Bool.false_eq_true, if_false] at h
      cases ho : jsNumber e.offset with
      | none => simp only [ho] at h; cases h
      | some offv =>
        cases hsz : jsNumber e.size with
        | none => simp only [ho, hsz] at h; cases h
        | some szv =>
          simp only [ho, hsz] at h
          split at h
          · cases h
          · have := ih _ res h q hq2
            rw [this, mapGet_mapSet, if_neg hpq]

/-- Extracting a re-laid-out visit list from a buffer whose tail at
`D + off` carries the packed buffers in traversal order succeeds and
re-inserts exactly the file-map buffers. -/
theorem extractEntries_relayout (sha : Bytes → String)
    (m : List (String × Bytes)) (out : Bytes) (D : Nat) :
    ∀ (walk : List (String × FileMeta)) (off : Nat)
      (acc : List (String × Bytes)) (tail : Bytes),
      out.drop (D + off) = (packedBufs m walk).flatten ++ tail →
      D + off ≤ out.length →
      (∀ pe ∈ walk, pe.2.unpacked = false → mapGet m pe.1 ≠ none) →
      extractEntries out D (relayoutList sha m walk off) acc =
        .ok (rebuiltExtract m walk acc) := by
  intro walk
  induction walk with
  | nil =>
    intro off acc tail hdrop hle hm
    simp [relayoutList, extractEntries, rebuiltExtract]
  | cons pe rest ih =>
    intro off acc tail hdrop hle hm
    obtain ⟨p, e⟩ := pe
    have hmrest : ∀ pe ∈ rest, pe.2.unpacked = false → mapGet m pe.1 ≠ none :=
      fun pe hpe => hm pe (List.mem_cons_of_mem _ hpe)
    cases hu : e.unpacked with
    | true =>
      simp only [relayoutList, hu, if_true]
      simp only [extractEntries, hu, if_true]
      rw [ih off acc tail (by simpa [packedBufs, hu] using hdrop) hle hmrest]
      simp [rebuiltExtract, hu]
    | false =>
      obtain ⟨b, hg⟩ : ∃ b, mapGet m p = some b := by
        cases hgg : mapGet m p with
        | none => exact absurd hgg (hm (p, e) (List.mem_cons_self _ _) hu)
        | some b => exact ⟨b, rfl⟩
      have hdrop2 : out.drop (D + off) =
          b ++ ((packedBufs m rest).flatten ++ tail) := by
        simpa [packedBufs, hu, hg] using hdrop
      obtain ⟨hb, hslice⟩ := bufSlice_of_drop out b
        ((packedBufs m rest).flatten ++ tail) (D + off) hle hdrop2
      simp only [relayoutList, hu, Bool.false_eq_true, if_false, hg]
      simp only [extractEntries, hu, Bool.false_eq_true, if_false, jsNumber]
      have hcast1 : (D : Int) + (off : Int) = ((D + off : Nat) : Int) := by
        push_cast; ring
      have hcast2 : (D : Int) + (off : Int) + (b.length : Int) =
          ((D + off + b.length : Nat) : Int) := by
        push_cast; ring
      rw [if_neg (by omega :
        ¬ ((D : Int) + (off : Int) < 0 ∨
          (D : Int) + (off : Int) + (b.length : Int) > (out.length : Int)))]
      rw [hcast2, hcast1, hslice]
      have hdrop3 : out.drop (D + (off + b.length)) =
          (packedBufs m rest).flatten ++ tail := by
        have harr : D + (off + b.length) = D + off + b.length := by omega
        rw [harr, ← List.drop_drop, hdrop2]
        simp
      rw [ih (off + b.length) (mapSet acc p b) tail hdrop3 (by omega) hmrest]
      simp [rebuiltExtract, hu, hg]

/-- Every packed entry of a re-laid-out visit list carries its running
offset, the length of its buffer as its size, a freshly recomputed
integrity record, and its declared byte range in the rebuilt buffer
slices back to exactly that buffer. -/
theorem relayoutList_entries (sha : Bytes → String)
    (m : List (String × Bytes)) (out : Bytes) (D : Nat) :
    ∀ (walk : List (String × FileMeta)) (off : Nat) (tail : Bytes),
      out.drop (D + off) = (packedBufs m walk).flatten ++ tail →
      D + off ≤ out.length →
      (∀ pe ∈ walk, pe.2.unpacked = false → mapGet m pe.1 ≠ none) →
      ∀ pe ∈ relayoutList sha m walk off, pe.2.unpacked = false →
        ∃ (offn : Nat) (b : Bytes),
          pe.2.offset = some (.decStr offn) ∧
          pe.2.size = some (.ofNum (b.length : Int)) ∧
          mapGet m pe.1 = some b ∧
          bufSlice out ((D + offn : Nat) : Int)
            ((D + offn + b.length : Nat) : Int) = b ∧
          pe.2.integrity = some (computeEntryIntegrity sha b) := by
  intro walk
  induction walk with
  | nil =>
    intro off tail hdrop hle hm pe hpe
    simp [relayoutList] at hpe
  | cons pe0 rest ih =>
    intro off tail hdrop hle hm pe hpe hpu
    obtain ⟨p, e⟩ := pe0
    have hmrest : ∀ pe ∈ rest, pe.2.unpacked = false → mapGet m pe.1 ≠ none :=
      fun pe hpe2 => hm pe (List.mem_cons_of_mem _ hpe2)
    cases hu : e.unpacked with
    | true =>
      rw [relayoutList] at hpe
      rw [hu] at hpe
      simp only [if_true, List.mem_cons] at hpe
      rcases hpe with rfl | hpe
      · rw [hu] at hpu; cases hpu
      · exact ih off tail (by simpa [packedBufs, hu] using hdrop) hle hmrest
          pe hpe hpu
    | false =>
      obtain ⟨b, hg⟩ : ∃ b, mapGet m p = some b := by
        cases hgg : mapGet m p with
        | none => exact absurd hgg (hm (p, e) (List.mem_cons_self _ _) hu)
        | some b => exact ⟨b, rfl⟩
      have hdrop2 : out.drop (D + off) =
          b ++ ((packedBufs m rest).flatten ++ tail) := by
        simpa [packedBufs, hu, hg] using hdrop
      obtain ⟨hb, hslice⟩ := bufSlice_of_drop out b
        ((packedBufs m rest).flatten ++ tail) (D + off) hle hdrop2
      rw [relayoutList] at hpe
      rw [hu] at hpe
      simp only [Bool.false_eq_true, if_false, hg, List.mem_cons] at hpe
      rcases hpe with rfl | hpe
      · exact ⟨off, b, rfl, rfl, hg, hslice, rfl⟩
      · have hdrop3 : out.drop (D + (off + b.length)) =
            (packedBufs m rest).flatten ++ tail := by
          have harr : D + (off + b.length) = D + off + b.length := by omega
          rw [harr, ← List.drop_drop, hdrop2]
          simp
        exact ih (off + b.length) tail hdrop3 (by omega) hmrest pe hpe hpu

theorem length_writeUInt32LE (v : Nat) : (writeUInt32LE v).length = 4 := rfl

/-- C4: a successful `buildAsar` walks the header tree in the extraction
traversal order (`walkLeafEntries`), re-laying packed entries out
contiguously at running-total offsets with their actual buffer lengths as
sizes (`relayoutList`), copies unpacked entries through with metadata
unchanged, and emits as data region exactly the packed buffers in
traversal order (`packedBufs`), preceded by the four prelude fields and
the serialised header. -/
theorem buildAsar_relayout (sha : Bytes → String) (ss : AsarNode → Bytes)
    (header : AsarNode) (m : List (String × Bytes)) (out : Bytes)
    (hbuild : buildAsar sha ss header m = .ok out) :
    ∃ h2 : AsarNode,
      walkLeafEntries h2 "" =
        relayoutList sha m (walkLeafEntries header "") 0 ∧
      (∀ pe ∈ walkLeafEntries header "", pe.2.unpacked = false →
        mapGet m pe.1 ≠ none) ∧
      out = writeUInt32LE 4 ++ writeUInt32LE ((ss h2).length + 8) ++
        writeUInt32LE ((ss h2).length + 4) ++ writeUInt32LE (ss h2).length ++
        ss h2 ++ (packedBufs m (walkLeafEntries header "")).flatten := by
  obtain ⟨h2, chunks, total, hre, hrange, hout⟩ :=
    buildAsar_ok sha ss header m out hbuild
  obtain ⟨hw, hchunks, htotal, hm⟩ :=
    rebuildNode_spec sha m header h2 chunks total hre
  exact ⟨h2, hw, hm, by rw [hout, hchunks]⟩

/-- Witness digest function for the concrete build examples: the decimal
rendering of the byte list (injective, hence a faithful stand-in). -/
def shaW : Bytes → String := fun b => toString b

/-- Concrete original header used by the build witnesses. -/
def headerW : AsarNode :=
  .dir "" (.cons "a" (.file { offset := some (.ofNum 0), size := some (.ofNum 2) })
    (.cons "b" (.file { unpacked := true, extra := "x" })
      (.cons "sub" (.dir "" (.cons "c"
        (.file { offset := some (.ofNum 2), size := some (.ofNum 1) })
        .nil)) .nil)))

/-- The extracted file map of the concrete example. -/
def mW : List (String × Bytes) := [("a", [9, 8]), ("sub/c", [7])]

/-- Witness serialisation function: a fixed four-byte header rendering. -/
def ssW : AsarNode → Bytes := fun _ => [1, 2, 3, 4]

/-- The rebuilt header of the concrete example. -/
def h2W : AsarNode :=
  .dir "" (.cons "a" (.file
      { offset := some (.decStr 0), size := some (.ofNum 2),
        integrity := some (computeEntryIntegrity shaW [9, 8]) })
    (.cons "b" (.file { unpacked := true, extra := "x" })
      (.cons "sub" (.dir "" (.cons "c" (.file
        { offset := some (.decStr 2), size := some (.ofNum 1),
          integrity := some (computeEntryIntegrity shaW [7]) })
        .nil)) .nil)))

/-- The container built from the concrete example. -/
def outW : Bytes :=
  [4, 0, 0, 0, 12, 0, 0, 0, 8, 0, 0, 0, 4, 0, 0, 0, 1, 2, 3, 4, 9, 8, 7]

/-- Witness for C4 on the concrete example container. -/
theorem buildAsar_relayout_witness :
    ∃ h2 : AsarNode,
      walkLeafEntries h2 "" =
        relayoutList shaW mW (walkLeafEntries headerW "") 0 ∧
      (∀ pe ∈ walkLeafEntries headerW "", pe.2.unpacked = false →
        mapGet mW pe.1 ≠ none) ∧
      outW = writeUInt32LE 4 ++ writeUInt32LE ((ssW h2).length + 8) ++
        writeUInt32LE ((ssW h2).length + 4) ++
        writeUInt32LE (ssW h2).length ++
        ssW h2 ++ (packedBufs mW (walkLeafEntries headerW "")).flatten :=
  buildAsar_relayout shaW ssW headerW mW outW (by rfl)

/-- C2: every packed entry of the header serialised into a `buildAsar`
output carries an integrity record whose whole-entry hash is the digest of
the entry's stored bytes (the slice of the output at its declared offset
and size) and whose blocks are the ordered digests of those bytes split
into consecutive `INTEGRITY_BLOCK_SIZE` chunks. -/
theorem buildAsar_integrity (sha : Bytes → String) (ss : AsarNode → Bytes)
    (header : AsarNode) (m : List (String × Bytes)) (out : Bytes)
    (hbuild : buildAsar sha ss header m = .ok out) :
    ∃ h2 : AsarNode,
      out = writeUInt32LE 4 ++ writeUInt32LE ((ss h2).length + 8) ++
        writeUInt32LE ((ss h2).length + 4) ++ writeUInt32LE (ss h2).length ++
        ss h2 ++ (packedBufs m (walkLeafEntries header "")).flatten ∧
      ∀ pe ∈ walkLeafEntries h2 "", pe.2.unpacked = false →
        ∃ (offn : Nat) (b : Bytes),
          pe.2.offset = some (.decStr offn) ∧
          pe.2.size = some (.ofNum (b.length : Int)) ∧
          bufSlice out ((16 + (ss h2).length + offn : Nat) : Int)
            ((16 + (ss h2).length + offn + b.length : Nat) : Int) = b ∧
          pe.2.integrity = some
            { algorithm := "SHA256", hash := sha b,
              blockSize := INTEGRITY_BLOCK_SIZE,
              blocks := (chunksOf b).map sha } := by
  obtain ⟨h2, chunks, total, hre, hrange, hout⟩ :=
    buildAsar_ok sha ss header m out hbuild
  obtain ⟨hw, hchunks, htotal, hm⟩ :=
    rebuildNode_spec sha m header h2 chunks total hre
  refine ⟨h2, by rw [hout, hchunks], ?_⟩
  intro pe hpe hpu
  have hpre : out = (writeUInt32LE 4 ++ writeUInt32LE ((ss h2).length + 8) ++
      writeUInt32LE ((ss h2).length + 4) ++ writeUInt32LE (ss h2).length ++
      ss h2) ++ chunks.flatten := by
    rw [hout]
  have hprelen : (writeUInt32LE 4 ++ writeUInt32LE ((ss h2).length + 8) ++
      writeUInt32LE ((ss h2).length + 4) ++ writeUInt32LE (ss h2).length ++
      ss h2).length = 16 + (ss h2).length := by
    simp [length_writeUInt32LE]
    omega
  have hdropD : out.drop (16 + (ss h2).length + 0) =
      (packedBufs m (walkLeafEntries header "")).flatten ++ [] := by
    rw [Nat.add_zero, hpre, ← hprelen, List.drop_left, hchunks,
      List.append_nil]
  have hDle : 16 + (ss h2).length + 0 ≤ out.length := by
    rw [hpre, List.length_append, hprelen]
    omega
  rw [hw] at hpe
  obtain ⟨offn, b, ho, hs, hg, hsl, hi⟩ :=
    relayoutList_entries sha m out (16 + (ss h2).length)
      (walkLeafEntries header "") 0 [] hdropD hDle hm pe hpe hpu
  refine ⟨offn, b, ho, hs, hsl, ?_⟩
  rw [hi]
  simp [computeEntryIntegrity, integrityBlocks_eq_map]

/-- Witness for C2 on the concrete example container. -/
theorem buildAsar_integrity_witness :
    ∃ h2 : AsarNode,
      outW = writeUInt32LE 4 ++ writeUInt32LE ((ssW h2).length + 8) ++
        writeUInt32LE ((ssW h2).length + 4) ++
        writeUInt32LE (ssW h2).length ++
        ssW h2 ++ (packedBufs mW (walkLeafEntries headerW "")).flatten ∧
      ∀ pe ∈ walkLeafEntries h2 "", pe.2.unpacked = false →
        ∃ (offn : Nat) (b : Bytes),
          pe.2.offset = some (.decStr offn) ∧
          pe.2.size = some (.ofNum (b.length : Int)) ∧
          bufSlice outW ((16 + (ssW h2).length + offn : Nat) : Int)
            ((16 + (ssW h2).length + offn + b.length : Nat) : Int) = b ∧
          pe.2.integrity = some
            { algorithm := "SHA256", hash := shaW b,
              blockSize := INTEGRITY_BLOCK_SIZE,
              blocks := (chunksOf b).map shaW } :=
  buildAsar_integrity shaW ssW headerW mW outW (by rfl)

/-- C1 (amended): parse, extract, rebuild with the unchanged map, then
parse and extract the rebuilt container; provided the JSON codec
round-trips on the rebuilt header and the rebuilt container is at least
the 20-byte minimum, the rebuilt container parses to the rebuilt header
and its extracted entry map is byte-identical to the original map at
every path. -/
theorem parse_rebuild_extract_roundtrip (sha : Bytes → String)
    (jp : Bytes → Option AsarNode) (ss : AsarNode → Bytes) (buf : Bytes)
    (header : AsarNode) (hlen D0 : Nat) (m : List (String × Bytes))
    (out : Bytes) (h2 : AsarNode) (chunks : List Bytes) (total : Nat)
    (hparse : parseAsar jp buf = .ok (header, hlen, D0))
    (hext : extractFileMap buf header D0 = .ok m)
    (hre : rebuildNode sha m header "" [] 0 = .ok (h2, chunks, total))
    (hbuild : buildAsar sha ss header m = .ok out)
    (hjson : jp (ss h2) = some h2)
    (hsize : 20 ≤ out.length) :
    ∃ m2, parseAsar jp out = .ok (h2, (ss h2).length, 16 + (ss h2).length) ∧
      extractFileMap out h2 (16 + (ss h2).length) = .ok m2 ∧
      ∀ p, mapGet m2 p = mapGet m p := by
  obtain ⟨h2x, chunksx, totalx, hrex, hrange, hout⟩ :=
    buildAsar_ok sha ss header m out hbuild
  rw [hre] at hrex
  obtain ⟨rfl, rfl, rfl⟩ :
      h2 = h2x ∧ chunks = chunksx ∧ total = totalx := by
    have := Except.ok.inj hrex
    simp only [Prod.mk.injEq] at this
    exact ⟨this.1, this.2.1, this.2.2⟩
  obtain ⟨hw, hchunks, htotal, hm⟩ :=
    rebuildNode_spec sha m header h2 chunks total hre
  have hpre : out = (writeUInt32LE 4 ++ writeUInt32LE ((ss h2).length + 8) ++
      writeUInt32LE ((ss h2).length + 4) ++ writeUInt32LE (ss h2).length ++
      ss h2) ++ chunks.flatten := by
    rw [hout]
  have hprelen : (writeUInt32LE 4 ++ writeUInt32LE ((ss h2).length + 8) ++
      writeUInt32LE ((ss h2).length + 4) ++ writeUInt32LE (ss h2).length ++
      ss h2).length = 16 + (ss h2).length := by
    simp [length_writeUInt32LE]
    omega
  have houtlen : out.length = 16 + (ss h2).length + chunks.flatten.length := by
    rw [hpre, List.length_append, hprelen]
  have hv : (ss h2).length < 4294967296 := by
    simp [UINT32_MAX] at hrange
    omega
  have hread : readUInt32LE out 12 = (ss h2).length := by
    rw [hout]
    have hassoc : writeUInt32LE 4 ++ writeUInt32LE ((ss h2).length + 8) ++
        writeUInt32LE ((ss h2).length + 4) ++
        writeUInt32LE (ss h2).length ++ ss h2 ++ chunks.flatten =
        (writeUInt32LE 4 ++ writeUInt32LE ((ss h2).length + 8) ++
          writeUInt32LE ((ss h2).length + 4)) ++
          (writeUInt32LE (ss h2).length ++ (ss h2 ++ chunks.flatten)) := by
      simp [List.append_assoc]
    rw [hassoc]
    exact readUInt32LE_concat _ (by simp [length_writeUInt32LE])
      (ss h2).length hv _
  have hdrop16 : out.drop 16 = ss h2 ++ chunks.flatten := by
    have hpre16 : out = (writeUInt32LE 4 ++ writeUInt32LE ((ss h2).length + 8) ++
        writeUInt32LE ((ss h2).length + 4) ++ writeUInt32LE (ss h2).length) ++
        (ss h2 ++ chunks.flatten) := by
      rw [hout]
      simp [List.append_assoc]
    have hlen16 : (writeUInt32LE 4 ++ writeUInt32LE ((ss h2).length + 8) ++
        writeUInt32LE ((ss h2).length + 4) ++
        writeUInt32LE (ss h2).length).length = 16 := by
      simp [length_writeUInt32LE]
    rw [hpre16, ← hlen16, List.drop_left]
  have hslice : bufSlice out ((16 : Nat) : Int)
      ((16 + (ss h2).length : Nat) : Int) = ss h2 := by
    rw [bufSlice_natCast out 16 (16 + (ss h2).length) (by omega) (by omega)]
    rw [hdrop16]
    simp
  have hparse2 : parseAsar jp out =
      .ok (h2, (ss h2).length, 16 + (ss h2).length) := by
    unfold parseAsar
    rw [if_neg (by omega), hread, if_neg (by omega)]
    have h16 : ((16 : Int)) = ((16 : Nat) : Int) := by norm_num
    rw [h16, hslice, hjson]
  have hdropD : out.drop (16 + (ss h2).length + 0) =
      (packedBufs m (walkLeafEntries header "")).flatten ++ [] := by
    rw [Nat.add_zero, hpre, ← hprelen, List.drop_left, hchunks,
      List.append_nil]
  have hextract : extractFileMap out h2 (16 + (ss h2).length) =
      .ok (rebuiltExtract m (walkLeafEntries header "") []) := by
    unfold extractFileMap
    rw [hw]
    exact extractEntries_relayout sha m out (16 + (ss h2).length)
      (walkLeafEntries header "") 0 [] [] hdropD (by omega) hm
  refine ⟨rebuiltExtract m (walkLeafEntries header "") [], hparse2,
    hextract, ?_⟩
  intro p
  rw [rebuiltExtract_get m (walkLeafEntries header "") [] p hm]
  cases hp : hasPackedKey (walkLeafEntries header "") p with
  | true => rw [if_pos rfl]
  | false =>
    rw [if_neg (by simp)]
    have hnone : mapGet m p = mapGet ([] : List (String × Bytes)) p := by
      refine extractEntries_get_of_notPacked buf D0
        (walkLeafEntries header "") [] m ?_ p hp
      simpa [extractFileMap] using hext
    rw [hnone]

/-- Witness JSON parser for the round-trip example. -/
def jpW : Bytes → Option AsarNode := fun b =>
  if b = [10, 11] then some headerW
  else if b = [1, 2, 3, 4] then some h2W else none

/-- Original container of the round-trip example: prelude declaring a
2-byte header, the header bytes, then three data bytes. -/
def bufW : Bytes :=
  [4, 0, 0, 0, 10, 0, 0, 0, 6, 0, 0, 0, 2, 0, 0, 0, 10, 11, 9, 8, 7]

/-- Witness for the amended C1 on the concrete example. -/
theorem parse_rebuild_extract_roundtrip_witness :
    ∃ m2, parseAsar jpW outW =
        .ok (h2W, (ssW h2W).length, 16 + (ssW h2W).length) ∧
      extractFileMap outW h2W (16 + (ssW h2W).length) = .ok m2 ∧
      ∀ p, mapGet m2 p = mapGet mW p :=
  parse_rebuild_extract_roundtrip shaW jpW ssW bufW headerW 2 18 mW outW
    h2W [[9, 8], [7]] 3 (by rfl) (by rfl) (by rfl) (by rfl) (by rfl)
    (by decide)

/-- Counterexample to C1 as stated: a valid 20-byte container whose header
is the empty JSON object parses and extracts successfully and rebuilds
successfully, but the rebuilt container is 18 bytes long, so parsing it
(the first step of extracting its entry map) fails with the minimum-size
`FormatError`.  The codec functions agree with the real JSON library on
every value they are applied to (`JSON.parse "\x7b\x7d"` is the empty
object, which serialises back to the two bytes `\x7b\x7d`). -/
theorem roundtrip_min_size_counterexample :
    parseAsar (fun b => if b = [123, 125] then some (.file {}) else none)
        [4, 0, 0, 0, 10, 0, 0, 0, 6, 0, 0, 0, 2, 0, 0, 0, 123, 125, 0, 0] =
      .ok (.file {}, 2, 18) ∧
    extractFileMap
        [4, 0, 0, 0, 10, 0, 0, 0, 6, 0, 0, 0, 2, 0, 0, 0, 123, 125, 0, 0]
        (.file {}) 18 = .ok [] ∧
    buildAsar (fun _ => "") (fun _ => [123, 125]) (.file {}) [] =
      .ok [4, 0, 0, 0, 10, 0, 0, 0, 6, 0, 0, 0, 2, 0, 0, 0, 123, 125] ∧
    (fun b => if b = [123, 125] then some (AsarNode.file {}) else none)
        ((fun (_ : AsarNode) => [123, 125]) (.file {})) = some (.file {}) ∧
    parseAsar (fun b => if b = [123, 125] then some (.file {}) else none)
        [4, 0, 0, 0, 10, 0, 0, 0, 6, 0, 0, 0, 2, 0, 0, 0, 123, 125] =
      .error "Invalid asar: too small" :=
  ⟨by rfl, by rfl, by rfl, by rfl, by rfl⟩

/-- C7: `parseAsar` fails with the minimum-size message on every buffer
shorter than 20 bytes, fails with the range message whenever the declared
header length extends past the buffer end, and on all other buffers the
prelude read and header slice succeed (the slice has exactly the declared
length) and the result depends only on the JSON parse of that slice. -/
theorem parseAsar_error_conditions (jp : Bytes → Option AsarNode)
    (buffer : Bytes) :
    (buffer.length < 20 →
      parseAsar jp buffer = .error "Invalid asar: too small") ∧
    (20 ≤ buffer.length → buffer.length < 16 + readUInt32LE buffer 12 →
      parseAsar jp buffer =
        .error "Invalid asar: header length exceeds file size") ∧
    (20 ≤ buffer.length → 16 + readUInt32LE buffer 12 ≤ buffer.length →
      (bufSlice buffer ((16 : Nat) : Int)
          ((16 + readUInt32LE buffer 12 : Nat) : Int)).length =
        readUInt32LE buffer 12 ∧
      parseAsar jp buffer =
        match jp (bufSlice buffer ((16 : Nat) : Int)
            ((16 + readUInt32LE buffer 12 : Nat) : Int)) with
        | some header =>
          .ok (header, readUInt32LE buffer 12, 16 + readUInt32LE buffer 12)
        | none => .error "SyntaxError: JSON.parse") := by
  refine ⟨?_, ?_, ?_⟩
  · intro h
    unfold parseAsar
    rw [if_pos h]
  · intro h1 h2
    unfold parseAsar
    rw [if_neg (by omega), if_pos (by omega)]
  · intro h1 h2
    constructor
    · rw [bufSlice_natCast buffer 16 (16 + readUInt32LE buffer 12)
        (by omega) (by omega)]
      simp only [List.length_take, List.length_drop]
      omega
    · unfold parseAsar
      rw [if_neg (by omega), if_neg (by omega)]
      have h16 : ((16 : Int)) = ((16 : Nat) : Int) := by norm_num
      rw [h16]

/-- Witness for C7 on the empty buffer. -/
theorem parseAsar_error_conditions_witness :
    parseAsar (fun _ => none) [] = .error "Invalid asar: too small" :=
  (parseAsar_error_conditions (fun _ => none) []).1 (by decide)

/-! ### UTF-8 transcoding

`loadBundleSourceFromAsar` decodes the bundle bytes with
`buffer.toString("utf8")` and `commandPatch` re-encodes the patched text
with `Buffer.from(text, "utf8")`.  The codec below is exact on well-formed
UTF-8; malformed sequences decode to replacement characters (Node inserts
U+FFFD too, though its granularity on malformed input can differ — no
claim depends on malformed input). -/

/-- The replacement character U+FFFD. -/
def replacementChar : Char := '�'

/-- UTF-8 encoding of one character. -/
def utf8EncodeChar (c : Char) : Bytes :=
  let n := c.toNat
  if n < 128 then [n]
  else if n < 2048 then [192 + n / 64, 128 + n % 64]
  else if n < 65536 then [224 + n / 4096, 128 + n / 64 % 64, 128 + n % 64]
  else [240 + n / 262144, 128 + n / 4096 % 64, 128 + n / 64 % 64,
    128 + n % 64]

/-- Models `Buffer.from(text, "utf8")`. -/
def utf8Encode (s : List Char) : Bytes := s.flatMap utf8EncodeChar

/-- Models `buffer.toString("utf8")`. -/
def utf8Decode : Bytes → List Char
  | [] => []
  | b1 :: rest =>
    if b1 < 128 then Char.ofNat b1 :: utf8Decode rest
    else if b1 < 194 then replacementChar :: utf8Decode rest
    else if b1 < 224 then
      match rest with
      | b2 :: rest2 =>
        if 128 ≤ b2 && b2 < 192 then
          Char.ofNat ((b1 - 192) * 64 + (b2 - 128)) :: utf8Decode rest2
        else replacementChar :: utf8Decode rest2
      | [] => [replacementChar]
    else if b1 < 240 then
      match rest with
      | b2 :: b3 :: rest3 =>
        if (128 ≤ b2 && b2 < 192) && (128 ≤ b3 && b3 < 192) then
          if (b1 - 224) * 4096 + (b2 - 128) * 64 + (b3 - 128) < 2048 ||
              (55296 ≤ (b1 - 224) * 4096 + (b2 - 128) * 64 + (b3 - 128) &&
                (b1 - 224) * 4096 + (b2 - 128) * 64 + (b3 - 128) < 57344) then
            replacementChar :: utf8Decode rest3
          else
            Char.ofNat ((b1 - 224) * 4096 + (b2 - 128) * 64 + (b3 - 128)) ::
              utf8Decode rest3
        else replacementChar :: utf8Decode rest3
      | _ => [replacementChar]
    else if b1 < 245 then
      match rest with
      | b2 :: b3 :: b4 :: rest4 =>
        if ((128 ≤ b2 && b2 < 192) && (128 ≤ b3 && b3 < 192)) &&
            (128 ≤ b4 && b4 < 192) then
          if (b1 - 240) * 262144 + (b2 - 128) * 4096 + (b3 - 128) * 64 +
                (b4 - 128) < 65536 ||
              1114111 < (b1 - 240) * 262144 + (b2 - 128) * 4096 +
                (b3 - 128) * 64 + (b4 - 128) then
            replacementChar :: utf8Decode rest4
          else
            Char.ofNat ((b1 - 240) * 262144 + (b2 - 128) * 4096 +
              (b3 - 128) * 64 + (b4 - 128)) :: utf8Decode rest4
        else replacementChar :: utf8Decode rest4
      | _ => [replacementChar]
    else replacementChar :: utf8Decode rest

/-! ### The filesystem state touched by the CLI and the patch command

The script addresses the fixed file locations computed by `getPaths`
(source lines 114–125).  `SysState` models the contents of those
locations; `none` is an absent file.  Of `Info.plist` only the
`ElectronAsarIntegrity` hash field for `Resources/app.asar` is ever read
or written (via PlistBuddy); the rest of the plist rides along opaquely.
Console output is modelled as a list of `Msg` values; the external
`codesign` invocation (source lines 346–356, a warning-only effect) is
recorded as a message and otherwise abstracted.  Errors abort the run; the
intermediate on-disk state of an aborted run is not modelled, and every
claim below concerns successful runs only. -/

/-- The `Info.plist` file: the asar-integrity hash field plus opaque
remainder. -/
structure Plist where
  asarHash : String
  rest : String
deriving DecidableEq

/-- The payload written by `writeMeta` (source lines 439–449). -/
structure MetaPayload where
  patchedAt : String
  backupPath : String
  infoPlistBackupPath : String
  targetBundlePath : String
  marker : String
  oldPlistSha256 : String
  oldSha256 : String
  newPlistSha256 : String
  newSha256 : String
deriving DecidableEq

/-- The contents of the file locations addressed by `getPaths`. -/
structure SysState where
  asar : Option Bytes
  infoPlist : Option Plist
  backupAsar : Option Bytes
  backupPlist : Option Plist
  temp : Option Bytes
  meta : Option MetaPayload
deriving DecidableEq

/-- Models `path.join` on the well-formed segments used by `getPaths`. -/
def pathJoin (a b : String) : String := a ++ "/" ++ b

/-- The path record of `getPaths(appPath)` (source lines 114–125). -/
structure Paths where
  appPath : String
  infoPlistPath : String
  infoPlistBackupPath : String
  asarPath : String
  backupPath : String
  metaPath : String
  tempPath : String
deriving DecidableEq

def getPaths (appPath : String) : Paths :=
  { appPath := appPath,
    infoPlistPath := pathJoin (pathJoin appPath "Contents") "Info.plist",
    infoPlistBackupPath :=
      pathJoin (pathJoin (pathJoin appPath "Contents") "Resources")
        "Info.plist.bak-darcula",
    asarPath :=
      pathJoin (pathJoin (pathJoin appPath "Contents") "Resources")
        "app.asar",
    backupPath :=
      pathJoin (pathJoin (pathJoin appPath "Contents") "Resources")
        "app.asar.bak-darcula",
    metaPath :=
      pathJoin (pathJoin (pathJoin appPath "Contents") "Resources")
        "app.asar.darcula-meta.json",
    tempPath :=
      pathJoin (pathJoin (pathJoin appPath "Contents") "Resources")
        "app.asar.tmp-darcula" }

/-- Console output of the modelled commands. -/
inductive Msg where
  | backupCreated (path : String)
  | backupExists (path : String)
  | alreadyAppliedHashFixed
  | alreadyApplied
  | patchApplied (oldSha newSha : String)
  | codesignRun
deriving DecidableEq

/-- The `TARGET_BUNDLE_PATH` constant (source line 8). -/
def TARGET_BUNDLE_PATH : String := ".vite/build/main-CQwPb0Th.js"

/-- Models `ensureBackup(paths, currentAsarBuffer)` (source lines
330–344): snapshot the container and the plist, each only when its backup
does not exist yet. -/
def ensureBackup (paths : Paths) (st : SysState)
    (currentAsarBuffer : Bytes) : Except String (SysState × List Msg) :=
  let step1 : SysState × List Msg :=
    match st.backupAsar with
    | none => ({ st with backupAsar := some currentAsarBuffer },
        [Msg.backupCreated paths.backupPath])
    | some _ => (st, [Msg.backupExists paths.backupPath])
  match step1.1.backupPlist with
  | none =>
    match step1.1.infoPlist with
    | none => .error "ENOENT: no such file or directory, copyfile"
    | some pl => .ok ({ step1.1 with backupPlist := some pl },
        step1.2 ++ [Msg.backupCreated paths.infoPlistBackupPath])
  | some _ => .ok (step1.1, step1.2 ++ [Msg.backupExists paths.infoPlistBackupPath])

/-- Models `getInfoPlistAsarHash` (source lines 358–370): PlistBuddy
prints the hash field; a missing plist makes the utility fail. -/
def getInfoPlistAsarHash (st : SysState) : Except String String :=
  match st.infoPlist with
  | none => .error "Could not read asar hash from Info.plist:"
  | some pl => .ok pl.asarHash

/-- Models `setInfoPlistAsarHash` (source lines 372–382). -/
def setInfoPlistAsarHash (st : SysState) (hash : String) :
    Except String SysState :=
  match st.infoPlist with
  | none => .error "Could not update asar hash in Info.plist:"
  | some pl => .ok { st with infoPlist := some { pl with asarHash := hash } }

/-- Models `loadBundleSourceFromAsar(asarBuffer)` (source lines 314–328). -/
def loadBundleSourceFromAsar (jp : Bytes → Option AsarNode)
    (asarBuffer : Bytes) :
    Except String (AsarNode × List (String × Bytes) × List Char) := do
  let (header, _, dataOffset) ← parseAsar jp asarBuffer
  let fileMap ← extractFileMap asarBuffer header dataOffset
  match mapGet fileMap TARGET_BUNDLE_PATH with
  | none => .error ("Target bundle not found: " ++ TARGET_BUNDLE_PATH)
  | some bundle => .ok (header, fileMap, utf8Decode bundle)

/-- Models `commandPatch(paths, codeSign)` (source lines 406–458) over a
`SysState`; `now` stands for `new Date().toISOString()`. -/
def commandPatch (sha : Bytes → String) (jp : Bytes → Option AsarNode)
    (ss : AsarNode → Bytes) (paths : Paths) (codeSign : Bool) (now : String)
    (st : SysState) : Except String (SysState × List Msg) :=
  match st.infoPlist with
  | none => .error ("Info.plist not found: " ++ paths.infoPlistPath)
  | some _ =>
    match st.asar with
    | none => .error ("app.asar not found: " ++ paths.asarPath)
    | some originalAsar => do
      let (st1, msgs1) ← ensureBackup paths st originalAsar
      let originalHash ← getAsarHeaderHash sha originalAsar
      let originalPlistHash ← getInfoPlistAsarHash st1
      let (header, fileMap, bundleSource) ←
        loadBundleSourceFromAsar jp originalAsar
      let r ← patchBundleSource bundleSource
      if r.2 then
        if originalPlistHash ≠ originalHash then do
          let st2 ← setInfoPlistAsarHash st1 originalHash
          .ok (st2, msgs1 ++ [Msg.alreadyAppliedHashFixed] ++
            (if codeSign then [Msg.codesignRun] else []))
        else
          .ok (st1, msgs1 ++ [Msg.alreadyApplied])
      else do
        let fileMap2 := mapSet fileMap TARGET_BUNDLE_PATH (utf8Encode r.1)
        let rebuiltAsar ← buildAsar sha ss header fileMap2
        let rebuiltHash ← getAsarHeaderHash sha rebuiltAsar
        let st2 := { st1 with temp := none, asar := some rebuiltAsar }
        let st3 ← setInfoPlistAsarHash st2 rebuiltHash
        let payload : MetaPayload :=
          { patchedAt := now, backupPath := paths.backupPath,
            infoPlistBackupPath := paths.infoPlistBackupPath,
            targetBundlePath := TARGET_BUNDLE_PATH,
            marker := "/*codex-darcula-patch*/",
            oldPlistSha256 := originalPlistHash,
            oldSha256 := originalHash,
            newPlistSha256 := rebuiltHash, newSha256 := rebuiltHash }
        let st4 := { st3 with meta := some payload }
        .ok (st4, msgs1 ++ [Msg.patchApplied originalHash rebuiltHash] ++
          (if codeSign then [Msg.codesignRun] else []))

/-- Inversion of a successful `ensureBackup` run: all non-backup slots are
untouched, existing backups survive verbatim, both backups exist
afterwards, the log carries only backup notices, and with both backups
already present the call is a no-op. -/
theorem ensureBackup_ok_inv (paths : Paths) (st : SysState) (cur : Bytes)
    (st1 : SysState) (log1 : List Msg)
    (h : ensureBackup paths st cur = .ok (st1, log1)) :
    st1.asar = st.asar ∧ st1.infoPlist = st.infoPlist ∧
    st1.temp = st.temp ∧ st1.meta = st.meta ∧
    (∀ b, st.backupAsar = some b → st1.backupAsar = some b) ∧
    (∀ p, st.backupPlist = some p → st1.backupPlist = some p) ∧
    st1.backupAsar ≠ none ∧ st1.backupPlist ≠ none ∧
    Msg.alreadyApplied ∉ log1 ∧ Msg.alreadyAppliedHashFixed ∉ log1 ∧
    (∀ o n, Msg.patchApplied o n ∉ log1) ∧
    (st.backupAsar ≠ none → st.backupPlist ≠ none →
      st1 = st ∧ log1 = [Msg.backupExists paths.backupPath,
        Msg.backupExists paths.infoPlistBackupPath]) := by
  cases hba : st.backupAsar with
  | none =>
    cases hbp : st.backupPlist with
    | none =>
      cases hpl : st.infoPlist with
      | none => simp only [ensureBackup, hba, hbp, hpl] at h; cases h
      | some pl =>
        simp only [ensureBackup, hba, hbp, hpl] at h
        rw [Except.ok.injEq, Prod.mk.injEq] at h
        obtain ⟨hst1, hlog⟩ := h
        subst hst1
        subst hlog
        refine ⟨rfl, rfl, rfl, rfl, ?_, ?_, by simp, by simp,
          by simp, by simp, by simp, ?_⟩
        · intro b hb; cases hb
        · intro p hp; cases hp
        · intro hcon; exact absurd rfl hcon
    | some p0 =>
      simp only [ensureBackup, hba, hbp] at h
      rw [Except.ok.injEq, Prod.mk.injEq] at h
      obtain ⟨hst1, hlog⟩ := h
      subst hst1
      subst hlog
      refine ⟨rfl, rfl, rfl, rfl, ?_, ?_, by simp, by simp [hbp],
        by simp, by simp, by simp, ?_⟩
      · intro b hb; cases hb
      · intro p hp; exact hp
      · intro hcon; exact absurd rfl hcon
  | some b0 =>
    cases hbp : st.backupPlist with
    | none =>
      cases hpl : st.infoPlist with
      | none => simp only [ensureBackup, hba, hbp, hpl] at h; cases h
      | some pl =>
        simp only [ensureBackup, hba, hbp, hpl] at h
        rw [Except.ok.injEq, Prod.mk.injEq] at h
        obtain ⟨hst1, hlog⟩ := h
        subst hst1
        subst hlog
        refine ⟨rfl, rfl, rfl, rfl, ?_, ?_, by simp [hba], by simp,
          by simp, by simp, by simp, ?_⟩
        · intro b hb; exact hb
        · intro p hp; cases hp
        · intro hcona hconp; exact absurd rfl hconp
    | some p0 =>
      simp only [ensureBackup, hba, hbp] at h
      rw [Except.ok.injEq, Prod.mk.injEq] at h
      obtain ⟨hst1, hlog⟩ := h
      subst hst1
      subst hlog
      refine ⟨rfl, rfl, rfl, rfl, ?_, ?_, by simp [hba], by simp [hbp],
        by simp, by simp, by simp, ?_⟩
      · intro b hb; exact hba.trans hb
      · intro p hp; exact hbp.trans hp
      · intro hcona hconp
        exact ⟨rfl, by simp⟩

/-- C9: `ensureBackup` never overwrites an existing backup — any backup
present before the call survives byte-identically — and running it twice
in a row leaves both backups exactly as the first call left them. -/
theorem ensureBackup_never_overwrites (paths : Paths) (st : SysState)
    (cur : Bytes) (st1 : SysState) (log1 : List Msg)
    (h1 : ensureBackup paths st cur = .ok (st1, log1)) :
    (∀ b, st.backupAsar = some b → st1.backupAsar = some b) ∧
    (∀ p, st.backupPlist = some p → st1.backupPlist = some p) ∧
    (∀ (cur2 : Bytes) (st2 : SysState) (log2 : List Msg),
      ensureBackup paths st1 cur2 = .ok (st2, log2) →
      st2.backupAsar = st1.backupAsar ∧ st2.backupPlist = st1.backupPlist) := by
  obtain ⟨-, -, -, -, hkeepA, hkeepP, hsomeA, hsomeP, -, -, -, hnoop⟩ :=
    ensureBackup_ok_inv paths st cur st1 log1 h1
  refine ⟨hkeepA, hkeepP, ?_⟩
  intro cur2 st2 log2 h2
  obtain ⟨-, -, -, -, -, -, -, -, -, -, -, hnoop2⟩ :=
    ensureBackup_ok_inv paths st1 cur2 st2 log2 h2
  obtain ⟨rfl, -⟩ := hnoop2 hsomeA hsomeP
  exact ⟨rfl, rfl⟩

/-- Witness state for the backup theorems: patched container present, no
backups yet. -/
def plP : Plist := { asarHash := shaW [10, 11], rest := "r" }

/-- Witness for C9: two consecutive backup runs from a backup-less state.-/
theorem ensureBackup_never_overwrites_witness :
    (∀ b, (SysState.mk (some [1]) (some plP) none none none none).backupAsar =
        some b →
      (SysState.mk (some [1]) (some plP) (some [1]) (some plP) none
        none).backupAsar = some b) ∧
    (∀ p, (SysState.mk (some [1]) (some plP) none none none none).backupPlist =
        some p →
      (SysState.mk (some [1]) (some plP) (some [1]) (some plP) none
        none).backupPlist = some p) ∧
    (∀ (cur2 : Bytes) (st2 : SysState) (log2 : List Msg),
      ensureBackup (getPaths "/Applications/Codex.app")
          (SysState.mk (some [1]) (some plP) (some [1]) (some plP) none none)
          cur2 = .ok (st2, log2) →
      st2.backupAsar =
        (SysState.mk (some [1]) (some plP) (some [1]) (some plP) none
          none).backupAsar ∧
      st2.backupPlist =
        (SysState.mk (some [1]) (some plP) (some [1]) (some plP) none
          none).backupPlist) :=
  ensureBackup_never_overwrites (getPaths "/Applications/Codex.app")
    (SysState.mk (some [1]) (some plP) none none none none) [1]
    (SysState.mk (some [1]) (some plP) (some [1]) (some plP) none none)
    [Msg.backupCreated (getPaths "/Applications/Codex.app").backupPath,
      Msg.backupCreated (getPaths "/Applications/Codex.app").infoPlistBackupPath]
    (by rfl)

/-- Inversion of `setInfoPlistAsarHash`. -/
theorem setInfoPlistAsarHash_ok (st st2 : SysState) (hash : String)
    (h : setInfoPlistAsarHash st hash = .ok st2) :
    ∃ pl, st.infoPlist = some pl ∧
      st2 = { st with infoPlist := some { pl with asarHash := hash } } := by
  cases hpl : st.infoPlist with
  | none => simp only [setInfoPlistAsarHash, hpl] at h; cases h
  | some pl =>
    simp only [setInfoPlistAsarHash, hpl] at h
    exact ⟨pl, rfl, by simpa using h.symm⟩

/-- Inversion of a successful `commandPatch` run into its three paths:
already patched with matching manifest, already patched with a manifest
fix, and a fresh rewrite. -/
theorem commandPatch_ok_inv (sha : Bytes → String)
    (jp : Bytes → Option AsarNode) (ss : AsarNode → Bytes) (paths : Paths)
    (codeSign : Bool) (now : String) (st st2 : SysState) (log : List Msg)
    (h : commandPatch sha jp ss paths codeSign now st = .ok (st2, log)) :
    ∃ originalAsar st1 msgs1 originalHash originalPlistHash,
      st.asar = some originalAsar ∧
      ensureBackup paths st originalAsar = .ok (st1, msgs1) ∧
      getAsarHeaderHash sha originalAsar = .ok originalHash ∧
      getInfoPlistAsarHash st1 = .ok originalPlistHash ∧
      ((originalPlistHash = originalHash ∧ st2 = st1 ∧
          log = msgs1 ++ [Msg.alreadyApplied]) ∨
        (originalPlistHash ≠ originalHash ∧
          (∃ pl, st1.infoPlist = some pl ∧
            st2 = { st1 with infoPlist := some { pl with asarHash := originalHash } }) ∧
          log = msgs1 ++ [Msg.alreadyAppliedHashFixed] ++
            (if codeSign then [Msg.codesignRun] else [])) ∨
        (∃ rebuiltAsar rebuiltHash pl,
          getAsarHeaderHash sha rebuiltAsar = .ok rebuiltHash ∧
          st1.infoPlist = some pl ∧
          st2.asar = some rebuiltAsar ∧
          st2.infoPlist = some { pl with asarHash := rebuiltHash } ∧
          st2.backupAsar = st1.backupAsar ∧
          st2.backupPlist = st1.backupPlist ∧
          log = msgs1 ++ [Msg.patchApplied originalHash rebuiltHash] ++
            (if codeSign then [Msg.codesignRun] else []))) := by
  unfold commandPatch at h
  cases hpl0 : st.infoPlist with
  | none => simp only [hpl0] at h; cases h
  | some pl0 =>
  simp only [hpl0] at h
  cases hasar : st.asar with
  | none => simp only [hasar] at h; cases h
  | some originalAsar =>
  simp only [hasar] at h
  cases heb : ensureBackup paths st originalAsar with
  | error e => rw [heb] at h; simp [exceptBind_err] at h
  | ok r1 =>
  obtain ⟨st1, msgs1⟩ := r1
  rw [heb] at h
  simp only [exceptBind_ok] at h
  cases hoh : getAsarHeaderHash sha originalAsar with
  | error e => rw [hoh] at h; simp [exceptBind_err] at h
  | ok originalHash =>
  rw [hoh] at h
  simp only [exceptBind_ok] at h
  cases hoph : getInfoPlistAsarHash st1 with
  | error e => rw [hoph] at h; simp [exceptBind_err] at h
  | ok originalPlistHash =>
  rw [hoph] at h
  simp only [exceptBind_ok] at h
  cases hload : loadBundleSourceFromAsar jp originalAsar with
  | error e => rw [hload] at h; simp [exceptBind_err] at h
  | ok trip =>
  obtain ⟨header, fileMap, bundleSource⟩ := trip
  rw [hload] at h
  simp only [exceptBind_ok] at h
  cases hpatch : patchBundleSource bundleSource with
  | error e => rw [hpatch] at h; simp [exceptBind_err] at h
  | ok r =>
  rw [hpatch] at h
  simp only [exceptBind_ok] at h
  refine ⟨originalAsar, st1, msgs1, originalHash, originalPlistHash,
    rfl, heb, hoh, hoph, ?_⟩
  cases hr2 : r.2 with
  | true =>
    rw [hr2] at h
    simp only [if_true] at h
    by_cases hne : originalPlistHash ≠ originalHash
    · rw [if_pos hne] at h
      cases hset : setInfoPlistAsarHash st1 originalHash with
      | error e => rw [hset] at h; simp [exceptBind_err] at h
      | ok st2x =>
        rw [hset] at h
        simp only [exceptBind_ok] at h
        obtain ⟨rfl, rfl⟩ : st2x = st2 ∧
            msgs1 ++ [Msg.alreadyAppliedHashFixed] ++
              (if codeSign then [Msg.codesignRun] else []) = log := by
          simpa using h
        obtain ⟨pl, hpl, hst2⟩ :=
          setInfoPlistAsarHash_ok st1 st2x originalHash hset
        exact Or.inr (Or.inl ⟨hne, ⟨pl, hpl, hst2⟩, rfl⟩)
    · rw [if_neg hne] at h
      obtain ⟨rfl, rfl⟩ : st1 = st2 ∧
          msgs1 ++ [Msg.alreadyApplied] = log := by
        simpa using h
      exact Or.inl ⟨by simpa using hne, rfl, rfl⟩
  | false =>
    rw [hr2] at h
    simp only [Bool.false_eq_true, if_false] at h
    cases hbuild : buildAsar sha ss header
        (mapSet fileMap TARGET_BUNDLE_PATH (utf8Encode r.1)) with
    | error e => rw [hbuild] at h; simp [exceptBind_err] at h
    | ok rebuiltAsar =>
    rw [hbuild] at h
    simp only [exceptBind_ok] at h
    cases hrh : getAsarHeaderHash sha rebuiltAsar with
    | error e => rw [hrh] at h; simp [exceptBind_err] at h
    | ok rebuiltHash =>
    rw [hrh] at h
    simp only [exceptBind_ok] at h
    cases hset : setInfoPlistAsarHash
        { st1 with temp := none, asar := some rebuiltAsar } rebuiltHash with
    | error e => rw [hset] at h; simp [exceptBind_err] at h
    | ok st3 =>
    rw [hset] at h
    simp only [exceptBind_ok] at h
    obtain ⟨pl, hpl, hst3⟩ := setInfoPlistAsarHash_ok
      { st1 with temp := none, asar := some rebuiltAsar } st3 rebuiltHash hset
    simp only at hpl
    rw [Except.ok.injEq, Prod.mk.injEq] at h
    obtain ⟨hst2, hlog⟩ := h
    subst hlog
    refine Or.inr (Or.inr ⟨rebuiltAsar, rebuiltHash, pl, hrh, hpl,
      ?_, ?_, ?_, ?_, rfl⟩)
    · rw [← hst2, hst3]
    · rw [← hst2, hst3]
    · rw [← hst2, hst3]
    · rw [← hst2, hst3]

/-- C5: after every successful `patch` command the hash stored in the
external manifest field equals the header-region digest (the digest over
exactly the prelude-declared header span, `getAsarHeaderHash`) of the live
container; this holds on all three success paths and so in particular
after every patch that rewrites the container. -/
theorem commandPatch_integrity_sync (sha : Bytes → String)
    (jp : Bytes → Option AsarNode) (ss : AsarNode → Bytes) (paths : Paths)
    (codeSign : Bool) (now : String) (st st2 : SysState) (log : List Msg)
    (h : commandPatch sha jp ss paths codeSign now st = .ok (st2, log)) :
    ∃ (a : Bytes) (pl : Plist),
      st2.asar = some a ∧ st2.infoPlist = some pl ∧
      getAsarHeaderHash sha a = .ok pl.asarHash := by
  obtain ⟨oa, st1, msgs1, oh, oph, hasar, heb, hoh, hoph, hcases⟩ :=
    commandPatch_ok_inv sha jp ss paths codeSign now st st2 log h
  obtain ⟨hfA, hfP, -, -, -, -, -, -, -, -, -, -⟩ :=
    ensureBackup_ok_inv paths st oa st1 msgs1 heb
  rcases hcases with ⟨heq, rfl, -⟩ | ⟨hne, ⟨pl, hpl, rfl⟩, -⟩ |
    ⟨ra, rh, pl, hrh, hpl, ha2, hp2, -, -, -⟩
  · cases hpl1 : st2.infoPlist with
    | none => simp [getInfoPlistAsarHash, hpl1] at hoph
    | some pl =>
      have hv : oph = pl.asarHash := by
        simp only [getInfoPlistAsarHash, hpl1] at hoph
        exact (Except.ok.inj hoph).symm
      refine ⟨oa, pl, ?_, rfl, ?_⟩
      · rw [hfA, hasar]
      · rw [show pl.asarHash = oh from hv.symm.trans heq]
        exact hoh
  · refine ⟨oa, { pl with asarHash := oh }, ?_, rfl, ?_⟩
    · show st1.asar = some oa
      rw [hfA, hasar]
    · exact hoh
  · exact ⟨ra, { pl with asarHash := rh }, ha2, hp2, hrh⟩

/-- Concrete already-patched bundle: the marker itself, UTF-8 encoded. -/
def bundleBytesP : Bytes := utf8Encode PATCH_MARKER

/-- Header of the already-patched example container: the target bundle
path `.vite/build/main-CQwPb0Th.js` as a nested directory tree. -/
def headerP : AsarNode :=
  .dir "" (.cons ".vite" (.dir "" (.cons "build" (.dir "" (.cons
    "main-CQwPb0Th.js"
    (.file { offset := some (.ofNum 0), size := some (.ofNum 23) })
    .nil)) .nil)) .nil)

/-- The already-patched example container: prelude declaring a 2-byte
header, the header bytes, then the 23 bundle bytes. -/
def bufP : Bytes :=
  [4, 0, 0, 0, 10, 0, 0, 0, 6, 0, 0, 0, 2, 0, 0, 0, 10, 11] ++ bundleBytesP

/-- JSON parser of the already-patched example. -/
def jpP : Bytes → Option AsarNode := fun b =>
  if b = [10, 11] then some headerP else none

/-- Already-patched state with a matching manifest hash and no backups. -/
def stP : SysState :=
  { asar := some bufP, infoPlist := some plP, backupAsar := none,
    backupPlist := none, temp := none, meta := none }

/-- The same state with both backups present. -/
def stPb : SysState :=
  { stP with backupAsar := some bufP, backupPlist := some plP }

/-- Witness for C5: re-running patch on the already-patched consistent
state keeps manifest hash and header digest equal. -/
theorem commandPatch_integrity_sync_witness :
    ∃ (a : Bytes) (pl : Plist),
      stPb.asar = some a ∧ stPb.infoPlist = some pl ∧
      getAsarHeaderHash shaW a = .ok pl.asarHash :=
  commandPatch_integrity_sync shaW jpP ssW
    (getPaths "/Applications/Codex.app") true "t" stPb stPb
    [Msg.backupExists (getPaths "/Applications/Codex.app").backupPath,
      Msg.backupExists (getPaths "/Applications/Codex.app").infoPlistBackupPath,
      Msg.alreadyApplied]
    (by rfl)

/-- C8 (amended): a successful re-run of `patch` on an already-patched
container (one whose run reports an already-applied or hash-fixed
outcome) performs no textual change to the container and never modifies
an existing backup; when the manifest digest already matches and both
backups already exist, the state is left completely unchanged and the
output is exactly the two backup-exists notices followed by the
already-applied message.  (When no backup exists yet, `ensureBackup` runs
before the already-patched check and creates one — see the
counterexample — so the original claim's "backup set is neither created
nor modified" only holds for existing backups.) -/
theorem commandPatch_already_patched_frame (sha : Bytes → String)
    (jp : Bytes → Option AsarNode) (ss : AsarNode → Bytes) (paths : Paths)
    (codeSign : Bool) (now : String) (st st2 : SysState) (log : List Msg)
    (h : commandPatch sha jp ss paths codeSign now st = .ok (st2, log))
    (halready : Msg.alreadyApplied ∈ log ∨
      Msg.alreadyAppliedHashFixed ∈ log) :
    st2.asar = st.asar ∧
    (∀ b, st.backupAsar = some b → st2.backupAsar = some b) ∧
    (∀ p, st.backupPlist = some p → st2.backupPlist = some p) ∧
    (Msg.alreadyApplied ∈ log → st.backupAsar ≠ none →
      st.backupPlist ≠ none →
      st2 = st ∧ log = [Msg.backupExists paths.backupPath,
        Msg.backupExists paths.infoPlistBackupPath, Msg.alreadyApplied]) := by
  obtain ⟨oa, st1, msgs1, oh, oph, hasar, heb, hoh, hoph, hcases⟩ :=
    commandPatch_ok_inv sha jp ss paths codeSign now st st2 log h
  obtain ⟨hfA, hfP, hfT, hfM, hkA, hkP, hneA, hneP, hnAA, hnHF, hnPA,
    hnoop⟩ := ensureBackup_ok_inv paths st oa st1 msgs1 heb
  have hcds : ∀ m : Msg,
      m ∈ (if codeSign then [Msg.codesignRun] else ([] : List Msg)) →
      m = Msg.codesignRun := by
    cases codeSign <;> simp
  rcases hcases with ⟨heq, rfl, rfl⟩ | ⟨hne, ⟨pl, hpl, rfl⟩, rfl⟩ |
    ⟨ra, rh, pl, hrh, hpl, ha2, hp2, hba2, hbp2, rfl⟩
  · refine ⟨by rw [hfA], hkA, hkP, ?_⟩
    intro hmem hcona hconp
    obtain ⟨rfl, rfl⟩ := hnoop hcona hconp
    exact ⟨rfl, rfl⟩
  · refine ⟨?_, ?_, ?_, ?_⟩
    · show st1.asar = st.asar
      exact hfA
    · intro b hb
      show st1.backupAsar = some b
      exact hkA b hb
    · intro p hp
      show st1.backupPlist = some p
      exact hkP p hp
    · intro hmem hcona hconp
      exfalso
      rcases List.mem_append.mp hmem with hm1 | hm2
      · rcases List.mem_append.mp hm1 with hm3 | hm4
        · exact hnAA hm3
        · cases (by simpa using hm4 :
            Msg.alreadyApplied = Msg.alreadyAppliedHashFixed)
      · cases hcds _ hm2
  · exfalso
    have hsplit : ∀ m : Msg, m ∈ msgs1 ++
        [Msg.patchApplied oh rh] ++
        (if codeSign then [Msg.codesignRun] else []) →
        m ∈ msgs1 ∨ m = Msg.patchApplied oh rh ∨ m = Msg.codesignRun := by
      intro m hm
      rcases List.mem_append.mp hm with hm1 | hm2
      · rcases List.mem_append.mp hm1 with hm3 | hm4
        · exact Or.inl hm3
        · exact Or.inr (Or.inl (by simpa using hm4))
      · exact Or.inr (Or.inr (hcds _ hm2))
    rcases halready with hm | hm
    · rcases hsplit _ hm with h1 | h1 | h1
      · exact hnAA h1
      · cases h1
      · cases h1
    · rcases hsplit _ hm with h1 | h1 | h1
      · exact hnHF h1
      · cases h1
      · cases h1

/-- Witness for the amended C8: re-running patch on the already-patched
state with both backups present. -/
theorem commandPatch_already_patched_frame_witness :
    stPb.asar = stPb.asar ∧
    (∀ b, stPb.backupAsar = some b → stPb.backupAsar = some b) ∧
    (∀ p, stPb.backupPlist = some p → stPb.backupPlist = some p) ∧
    (Msg.alreadyApplied ∈
        [Msg.backupExists (getPaths "/Applications/Codex.app").backupPath,
          Msg.backupExists
            (getPaths "/Applications/Codex.app").infoPlistBackupPath,
          Msg.alreadyApplied] →
      stPb.backupAsar ≠ none → stPb.backupPlist ≠ none →
      stPb = stPb ∧
        [Msg.backupExists (getPaths "/Applications/Codex.app").backupPath,
          Msg.backupExists
            (getPaths "/Applications/Codex.app").infoPlistBackupPath,
          Msg.alreadyApplied] =
        [Msg.backupExists (getPaths "/Applications/Codex.app").backupPath,
          Msg.backupExists
            (getPaths "/Applications/Codex.app").infoPlistBackupPath,
          Msg.alreadyApplied]) :=
  commandPatch_already_patched_frame shaW jpP ssW
    (getPaths "/Applications/Codex.app") true "t" stPb stPb
    [Msg.backupExists (getPaths "/Applications/Codex.app").backupPath,
      Msg.backupExists (getPaths "/Applications/Codex.app").infoPlistBackupPath,
      Msg.alreadyApplied]
    (by rfl) (Or.inl (by simp))

/-- Counterexample to C8 as stated: the example state is already patched
(the bundle text contains the marker, so `patchBundleSource` reports
`alreadyPatched`) and its manifest digest matches its header digest, yet
with no backup present, re-running `commandPatch` creates the backup set
(`ensureBackup` runs before the already-patched check) and prints backup
notices besides the already-applied outcome. -/
theorem commandPatch_backup_created_counterexample :
    stP.backupAsar = none ∧
    stP.infoPlist = some plP ∧
    getAsarHeaderHash shaW bufP = .ok plP.asarHash ∧
    patchBundleSource (utf8Decode bundleBytesP) =
      .ok (utf8Decode bundleBytesP, true) ∧
    commandPatch shaW jpP ssW (getPaths "/Applications/Codex.app") true "t"
        stP =
      .ok (stPb,
        [Msg.backupCreated (getPaths "/Applications/Codex.app").backupPath,
          Msg.backupCreated
            (getPaths "/Applications/Codex.app").infoPlistBackupPath,
          Msg.alreadyApplied]) ∧
    stPb.backupAsar ≠ none ∧
    [Msg.backupCreated (getPaths "/Applications/Codex.app").backupPath,
      Msg.backupCreated
        (getPaths "/Applications/Codex.app").infoPlistBackupPath,
      Msg.alreadyApplied] ≠ [Msg.alreadyApplied] :=
  ⟨rfl, rfl, rfl, rfl, rfl, by simp [stPb], by simp⟩

end CodexDarcula

